import Mathlib

/-!
# Swept1D: the one-dimensional Euler solver of `euler.h`

A shallow embedding of the numerical core (`pressure`, the two ratio stages,
`limitedReconstruction`, `eulerFlux`, the two face-flux variants and the two
update stages) together with theorems about it. The program computes on
`double`; it is embedded twice.

## The embedding in exact arithmetic

In the first embedding a conserved quantity, a pressure or a flux is an element
of an ordered field `α`, `+ - * /` are the field operations and no rounding
takes place. It carries the statements that are worded for exact arithmetic,
the formulas and the structure of the stages. The definitions run over `ℚ`; the
theorems hold in every ordered field. `sqrt` comes from the class `HasSqrt` and
is a total function: the theorems hold for whatever values it returns, except
where a hypothesis says that it is positive on positive numbers. What the
program computes as an infinity or a NaN has no value of its own here: the
statements about quotients by a density carry the hypothesis that the density
is positive, and `eulerFluxChecked` is `none` where a `sqrt` of `eulerFlux`
receives a negative argument.

The one place where the program itself looks at a non-finite `double` is the
smoothness ratio: it is produced by a division whose divisor can be zero and it
is consumed behind `std::isfinite`. In the exact embedding a ratio is a
`Dbl α`: a finite number, an infinity, or a NaN.

A stage is embedded as a function of the input fields of the left neighbour
`sp.nbr(0)`, of the cell, and of the right neighbour `sp.nbr(1)`; its value is
the record of the output fields it writes. `onRow` and `onRing` apply a stage
to every cell of a row, `fullStep` chains the four stages, `run` repeats
`fullStep`, and `sodRow` is the initial row of the Sod problem.

## The embedding on binary64

`F64` is a model of `double`: sign, significand and exponent of a finite
number, the two infinities and NaN, with `+ - * /` and `sqrt` rounded to
nearest, ties to even, and the comparisons, `fabs`, `std::min` and
`std::isfinite` of the program. The namespace `B64` holds the same functions of
`euler.h` on `F64`, every operation in the order in which the source writes it.
It carries the statements about what the code returns on the machine: rounding,
overflow and NaN are those of the program.

`SpatialPoint<nIn,nOut>` comes from `pde_common.h`, which is not among the
sources. In `B64` a point is a position in a row of cells, with the accessor
`inputs` and the neighbour views `nbr`; a stage is a function of a point and can
read any cell that its body reaches. `B64.onGrid` applies a stage to every cell
of a row and `B64.fullStep` chains the four stages.
-/

namespace Swept1D

/-- A number type with the square-root function that `eulerFlux` calls. -/
class HasSqrt (α : Type) where
  /-- The function `sqrt` of `<cmath>`. -/
  sqrt : α → α

/-- The function `Rat.sqrt` as the square root over `ℚ`: the integer square
roots of numerator and denominator, exact on squares of rationals and a
stand-in elsewhere. The evaluations over `ℚ` in this file use that it is
positive on positive numbers and non-negative, not its values. -/
instance : HasSqrt ℚ := ⟨Rat.sqrt⟩

/-- A `double` that may be non-finite. `inf` stands for an infinity of either
sign: the program tests `std::isfinite` before it compares a ratio with zero,
and the reciprocal of either infinity is a zero, so the sign is never
observed. -/
inductive Dbl (α : Type) where
  | fin (x : α)
  | inf
  | nan
  deriving DecidableEq, Repr

namespace Dbl

variable {α : Type}

/-- The test `std::isfinite`. -/
def isfinite : Dbl α → Bool
  | fin _ => true
  | inf => false
  | nan => false

/-- The quotient `n / d` of two finite doubles: `0/0` is a NaN, any other
division by zero an infinity. -/
def div [LinearOrderedField α] (n d : α) : Dbl α :=
  if d = 0 then (if n = 0 then nan else inf) else fin (n / d)

/-- The expression `1./r`: the reciprocal of an infinity is a zero, the
reciprocal of a NaN is a NaN. -/
def recip [LinearOrderedField α] : Dbl α → Dbl α
  | fin x => div 1 x
  | inf => fin 0
  | nan => nan

end Dbl

section Code

variable {α : Type} [LinearOrderedField α]

/-- The constant `DT` (line 4). -/
def DT : α := 0.02

/-- The constant `DX` (line 4). -/
def DX : α := 0.5

/-- The function `pressure` (lines 7-11). -/
def pressure (rho rhoU rhoE : α) : α :=
  let kineticE := 0.5 * rhoU * rhoU / rho
  let gamma : α := 1.4
  (gamma - 1) * (rhoE - kineticE)

/-- The function `limitedReconstruction` (lines 26-33). The branch condition
`std::isfinite(r) && r > 0` is the first arm of the match followed by the
test `0 < x`; `std::min(r, 1.0)` is `min x 1`. -/
def limitedReconstruction (w wNbr : α) (r : Dbl α) : α :=
  match r with
  | Dbl.fin x =>
    if 0 < x then
      let limiter := min x 1
      w + 0.5 * (wNbr - w) * limiter
    else
      w
  | Dbl.inf => w
  | Dbl.nan => w

/-- A `double[3]`: a conserved triple `(rho, rhoU, rhoE)` or a flux. -/
abbrev Vec3 (α : Type) : Type := Fin 3 → α

/-- Modelled from the spec: `SpatialPoint<0,3>` on its output side and
`SpatialPoint<3,4>` on its input side (`pde_common.h` is not among the
sources). Section 6 gives a cell numbered fields read with `inputs(i)` and
written with `outputs(i)`; `fi` is field `i`. Here the three fields are the
conserved triple. -/
structure SP3 (α : Type) where
  f0 : α
  f1 : α
  f2 : α

/-- Modelled from the spec: the four fields written by `pRatioStep0` and read by
`updateStep0` (`SpatialPoint<3,4>` outputs, `SpatialPoint<4,6>` inputs): the
conserved triple and, in field 3, its ratio. -/
structure SP4 (α : Type) where
  f0 : α
  f1 : α
  f2 : α
  f3 : Dbl α

/-- Modelled from the spec: the six fields written by `updateStep0` and read by
`pRatioStep1` (`SpatialPoint<4,6>` outputs, `SpatialPoint<6,7>` inputs). -/
structure SP6 (α : Type) where
  f0 : α
  f1 : α
  f2 : α
  f3 : α
  f4 : α
  f5 : α

/-- Modelled from the spec: the seven fields written by `pRatioStep1` and read
by `updateStep1` (`SpatialPoint<6,7>` outputs, `SpatialPoint<7,3>` inputs);
field 6 is the ratio of the triple in fields 3, 4, 5. -/
structure SP7 (α : Type) where
  f0 : α
  f1 : α
  f2 : α
  f3 : α
  f4 : α
  f5 : α
  f6 : Dbl α

/-- The stage `pRatioStep0` (lines 13-24). `Lp` and `Rp` are `sp.nbr(0)` and
`sp.nbr(1)`. -/
def pRatioStep0 (Lp sp Rp : SP3 α) : SP4 α :=
  let p := pressure sp.f0 sp.f1 sp.f2
  let pL := pressure Lp.f0 Lp.f1 Lp.f2
  let pR := pressure Rp.f0 Rp.f1 Rp.f2
  { f0 := sp.f0
    f1 := sp.f1
    f2 := sp.f2
    f3 := Dbl.div (pR - p) (p - pL) }

/-- The function `eulerFlux` (lines 35-62). `flux0`, `flux1`, `flux2` are
`flux[0..2]` after lines 43-47; the result is `flux` after the three `+=` of
lines 59-61. -/
def eulerFlux [HasSqrt α] (wMinus wPlus : Vec3 α) : Vec3 α :=
  let rhoMinus := wMinus 0
  let rhoPlus := wPlus 0
  let uMinus := wMinus 1 / rhoMinus
  let uPlus := wPlus 1 / rhoPlus
  let EMinus := wMinus 2 / rhoMinus
  let EPlus := wPlus 2 / rhoPlus
  let pMinus := pressure (wMinus 0) (wMinus 1) (wMinus 2)
  let pPlus := pressure (wPlus 0) (wPlus 1) (wPlus 2)
  let flux0 := 0.5 * (rhoPlus * uPlus + rhoMinus * uMinus)
  let flux1 := 0.5 * (rhoPlus * uPlus * uPlus + pPlus
                     + rhoMinus * uMinus * uMinus + pMinus)
  let flux2 := 0.5 * (rhoPlus * uPlus * EPlus + uPlus * pPlus
                     + rhoMinus * uMinus * EMinus + uMinus * pMinus)
  let rhoSqrtMinus := HasSqrt.sqrt rhoMinus
  let rhoSqrtPlus := HasSqrt.sqrt rhoPlus
  let rho := rhoSqrtMinus * rhoSqrtPlus
  let u := (rhoSqrtMinus * uMinus + rhoSqrtPlus * uPlus)
           / (rhoSqrtMinus + rhoSqrtPlus)
  let E := (rhoSqrtMinus * EMinus + rhoSqrtPlus * EPlus)
           / (rhoSqrtMinus + rhoSqrtPlus)
  let p := pressure rho (rho * u) (rho * E)
  let gamma : α := 1.4
  let spectralRadius := HasSqrt.sqrt (gamma * p / rho) + |u|
  ![flux0 + 0.5 * spectralRadius * (wMinus 0 - wPlus 0),
    flux1 + 0.5 * spectralRadius * (wMinus 1 - wPlus 1),
    flux2 + 0.5 * spectralRadius * (wMinus 2 - wPlus 2)]

/-- The function `eulerFlux0` (lines 64-75), its loop over `i = 0, 1, 2`
written out. -/
def eulerFlux0 [HasSqrt α] (L R : SP4 α) : Vec3 α :=
  let wL : Vec3 α :=
    ![limitedReconstruction L.f0 R.f0 L.f3,
      limitedReconstruction L.f1 R.f1 L.f3,
      limitedReconstruction L.f2 R.f2 L.f3]
  let wR : Vec3 α :=
    ![limitedReconstruction R.f0 L.f0 (Dbl.recip R.f3),
      limitedReconstruction R.f1 L.f1 (Dbl.recip R.f3),
      limitedReconstruction R.f2 L.f2 (Dbl.recip R.f3)]
  eulerFlux wL wR

/-- The stage `updateStep0` (lines 77-90). -/
def updateStep0 [HasSqrt α] (Lp sp Rp : SP4 α) : SP6 α :=
  let fluxL := eulerFlux0 Lp sp
  let fluxR := eulerFlux0 sp Rp
  { f0 := sp.f0
    f1 := sp.f1
    f2 := sp.f2
    f3 := sp.f0 - 0.5 * DT * (fluxR 0 - fluxL 0) / DX
    f4 := sp.f1 - 0.5 * DT * (fluxR 1 - fluxL 1) / DX
    f5 := sp.f2 - 0.5 * DT * (fluxR 2 - fluxL 2) / DX }

/-- The stage `pRatioStep1` (lines 92-103). -/
def pRatioStep1 (Lp sp Rp : SP6 α) : SP7 α :=
  let p := pressure sp.f3 sp.f4 sp.f5
  let pL := pressure Lp.f3 Lp.f4 Lp.f5
  let pR := pressure Rp.f3 Rp.f4 Rp.f5
  { f0 := sp.f0
    f1 := sp.f1
    f2 := sp.f2
    f3 := sp.f3
    f4 := sp.f4
    f5 := sp.f5
    f6 := Dbl.div (pR - p) (p - pL) }

/-- The function `eulerFlux1` (lines 105-116), its loop over `i = 3, 4, 5`
written out. -/
def eulerFlux1 [HasSqrt α] (L R : SP7 α) : Vec3 α :=
  let wL : Vec3 α :=
    ![limitedReconstruction L.f3 R.f3 L.f6,
      limitedReconstruction L.f4 R.f4 L.f6,
      limitedReconstruction L.f5 R.f5 L.f6]
  let wR : Vec3 α :=
    ![limitedReconstruction R.f3 L.f3 (Dbl.recip R.f6),
      limitedReconstruction R.f4 L.f4 (Dbl.recip R.f6),
      limitedReconstruction R.f5 L.f5 (Dbl.recip R.f6)]
  eulerFlux wL wR

/-- The stage `updateStep1` (lines 118-127). -/
def updateStep1 [HasSqrt α] (Lp sp Rp : SP7 α) : SP3 α :=
  let fluxL := eulerFlux1 Lp sp
  let fluxR := eulerFlux1 sp Rp
  { f0 := sp.f0 - DT * (fluxR 0 - fluxL 0) / DX
    f1 := sp.f1 - DT * (fluxR 1 - fluxL 1) / DX
    f2 := sp.f2 - DT * (fluxR 2 - fluxL 2) / DX }

/-- The stage `init` (lines 129-140); `x` is `sp.x`. -/
def init (x : α) : SP3 α :=
  let gamma : α := 1.4
  if x > 0 then
    { f0 := 1.0
      f1 := 0.0
      f2 := 1.0 / (gamma - 1) }
  else
    { f0 := 0.125
      f1 := 0.0
      f2 := 0.1 / (gamma - 1) }

/-- The three conserved fields 0, 1, 2 of a cell, as a triple. -/
def SP3.w (c : SP3 α) : Vec3 α := ![c.f0, c.f1, c.f2]

/-- The three conserved fields 0, 1, 2 of a cell, as a triple. -/
def SP4.w (c : SP4 α) : Vec3 α := ![c.f0, c.f1, c.f2]

/-- The half-step triple of a cell: fields 3, 4, 5. -/
def SP6.h (c : SP6 α) : Vec3 α := ![c.f3, c.f4, c.f5]

/-- The half-step triple of a cell: fields 3, 4, 5. -/
def SP7.h (c : SP7 α) : Vec3 α := ![c.f3, c.f4, c.f5]

/-- The fields 3, 4, 5, 6 of a cell, as a four-field cell `(a, b, c, r)`. -/
def SP7.tail4 (c : SP7 α) : SP4 α := { f0 := c.f3, f1 := c.f4, f2 := c.f5, f3 := c.f6 }

/-- The value of `flux` in `eulerFlux` after lines 43-47, before the
dissipation is added. -/
def centralFlux (wMinus wPlus : Vec3 α) : Vec3 α :=
  let rhoMinus := wMinus 0
  let rhoPlus := wPlus 0
  let uMinus := wMinus 1 / rhoMinus
  let uPlus := wPlus 1 / rhoPlus
  let EMinus := wMinus 2 / rhoMinus
  let EPlus := wPlus 2 / rhoPlus
  let pMinus := pressure (wMinus 0) (wMinus 1) (wMinus 2)
  let pPlus := pressure (wPlus 0) (wPlus 1) (wPlus 2)
  ![0.5 * (rhoPlus * uPlus + rhoMinus * uMinus),
    0.5 * (rhoPlus * uPlus * uPlus + pPlus
           + rhoMinus * uMinus * uMinus + pMinus),
    0.5 * (rhoPlus * uPlus * EPlus + uPlus * pPlus
           + rhoMinus * uMinus * EMinus + uMinus * pMinus)]

/-- The local `spectralRadius` of `eulerFlux` (lines 49-57). -/
def spectralRadius [HasSqrt α] (wMinus wPlus : Vec3 α) : α :=
  let rhoMinus := wMinus 0
  let rhoPlus := wPlus 0
  let uMinus := wMinus 1 / rhoMinus
  let uPlus := wPlus 1 / rhoPlus
  let EMinus := wMinus 2 / rhoMinus
  let EPlus := wPlus 2 / rhoPlus
  let rhoSqrtMinus := HasSqrt.sqrt rhoMinus
  let rhoSqrtPlus := HasSqrt.sqrt rhoPlus
  let rho := rhoSqrtMinus * rhoSqrtPlus
  let u := (rhoSqrtMinus * uMinus + rhoSqrtPlus * uPlus)
           / (rhoSqrtMinus + rhoSqrtPlus)
  let E := (rhoSqrtMinus * EMinus + rhoSqrtPlus * EPlus)
           / (rhoSqrtMinus + rhoSqrtPlus)
  let p := pressure rho (rho * u) (rho * E)
  let gamma : α := 1.4
  HasSqrt.sqrt (gamma * p / rho) + |u|

/-- The dissipation term that lines 59-61 of `eulerFlux` add to `flux`. -/
def dissipation [HasSqrt α] (wMinus wPlus : Vec3 α) : Vec3 α :=
  ![0.5 * spectralRadius wMinus wPlus * (wMinus 0 - wPlus 0),
    0.5 * spectralRadius wMinus wPlus * (wMinus 1 - wPlus 1),
    0.5 * spectralRadius wMinus wPlus * (wMinus 2 - wPlus 2)]

/-- The spec's spectral radius (section 4.4, step 3):
`lambda = sqrt(1.4*pAvg/rhoAvg) + |uAvg|` for the averaged state with
`rhoAvg = sqrt(rhoMinus)*sqrt(rhoPlus)`, `uAvg` and `EAvg` the averages of `u`
and `E` weighted by `sqrt(rho)`, `pAvg` its pressure. -/
def roeLambda [HasSqrt α] (wMinus wPlus : Vec3 α) : α :=
  let sMinus := HasSqrt.sqrt (wMinus 0)
  let sPlus := HasSqrt.sqrt (wPlus 0)
  let rhoAvg := sMinus * sPlus
  let uAvg := (sMinus * (wMinus 1 / wMinus 0) + sPlus * (wPlus 1 / wPlus 0)) / (sMinus + sPlus)
  let EAvg := (sMinus * (wMinus 2 / wMinus 0) + sPlus * (wPlus 2 / wPlus 0)) / (sMinus + sPlus)
  let pAvg := pressure rhoAvg (rhoAvg * uAvg) (rhoAvg * EAvg)
  HasSqrt.sqrt (1.4 * pAvg / rhoAvg) + |uAvg|

/-- The spec's face rule (section 4.3): between a left triple `wl` with ratio
`rL` and a right triple `wr` with ratio `rR`, each component `i` of the left
face state is `limitedReconstruction(wl_i, wr_i, rL)`, each component of the
right face state is `limitedReconstruction(wr_i, wl_i, 1/rR)`, and the face flux
is `eulerFlux` of the two. -/
def limitedFaceFlux [HasSqrt α] (wl wr : Vec3 α) (rL rR : Dbl α) : Vec3 α :=
  eulerFlux (fun i => limitedReconstruction (wl i) (wr i) rL)
            (fun i => limitedReconstruction (wr i) (wl i) (Dbl.recip rR))

/-- Modelled from the spec: the grid of section 6, applying a stage to every
cell of a row (the grid and the driver are not among the sources). The cells are
numbered by the integers; `nbr(0)` of cell `i` is cell `i - 1`, `nbr(1)` is cell
`i + 1`, and every cell reads the previous generation. -/
def onRow {A B : Type} (stage : A → A → A → B) (row : ℤ → A) : ℤ → B :=
  fun i => stage (row (i - 1)) (row i) (row (i + 1))

/-- Modelled from the spec: the same on a ring of `N ≥ 1` cells with periodic
neighbour access: the left neighbour of cell `0` is cell `N - 1`, the right
neighbour of cell `N - 1` is cell `0`. -/
def onRing {A B : Type} {N : ℕ} [NeZero N] (stage : A → A → A → B) (row : Fin N → A) :
    Fin N → B :=
  fun i => stage (row (i - 1)) (row i) (row (i + 1))

/-- The four stages chained on a row in the order of section 2 of the spec:
each stage reads, for every cell, the outputs of the stage before it. -/
def fullStep [HasSqrt α] (U : ℤ → SP3 α) : ℤ → SP3 α :=
  onRow updateStep1 (onRow pRatioStep1 (onRow updateStep0 (onRow pRatioStep0 U)))

/-- The spec's smoothness ratio of cell `j` of a row of conserved triples
(section 4.2): `(pR - p)/(p - pL)` for the pressures of cells `j`, `j - 1`,
`j + 1`. -/
def ratioAt (W : ℤ → Vec3 α) (j : ℤ) : Dbl α :=
  Dbl.div (pressure (W (j + 1) 0) (W (j + 1) 1) (W (j + 1) 2)
            - pressure (W j 0) (W j 1) (W j 2))
          (pressure (W j 0) (W j 1) (W j 2)
            - pressure (W (j - 1) 0) (W (j - 1) 1) (W (j - 1) 2))

/-- The spec's spatial operator `F(W_j, W_{j+1})`: the limited face flux between
cells `j` and `j + 1` of a row of conserved triples, reconstructed with the
pressure ratios of that same row. -/
def rowFlux [HasSqrt α] (W : ℤ → Vec3 α) (j : ℤ) : Vec3 α :=
  limitedFaceFlux (W j) (W (j + 1)) (ratioAt W j) (ratioAt W (j + 1))

/-- The half-step state `H_j = U_j - 0.5*(DT/DX)*(F(U_j, U_{j+1}) - F(U_{j-1}, U_j))`. -/
def halfStep [HasSqrt α] (U : ℤ → Vec3 α) : ℤ → Vec3 α :=
  fun j k => U j k - 0.5 * (DT / DX) * (rowFlux U j k - rowFlux U (j - 1) k)

/-- The midpoint scheme `U_i - (DT/DX)*(F(H_i, H_{i+1}) - F(H_{i-1}, H_i))`, with
`H` the half-step state of `U`. -/
def midpointStep [HasSqrt α] (U : ℤ → Vec3 α) : ℤ → Vec3 α :=
  fun i k => U i k
    - (DT / DX) * (rowFlux (halfStep U) i k - rowFlux (halfStep U) (i - 1) k)

/-- The constant `nStepsPerPixel` (line 5). -/
def nStepsPerPixel : ℕ := 50

/-- The constant `nPixel` (line 5). -/
def nPixel : ℕ := 2000

/-- The mirror image `m(rho, rhoU, rhoE) = (rho, -rhoU, rhoE)` of a conserved
triple: the same gas moving the other way. -/
def mirror (w : Vec3 α) : Vec3 α := ![w 0, -(w 1), w 2]

/-- The valid-state invariant of section 3 of the spec: positive density and
non-negative pressure. -/
def Admissible (w : Vec3 α) : Prop :=
  0 < w 0 ∧ 0 ≤ pressure (w 0) (w 1) (w 2)

/-- Modelled from the spec: the time-stepping driver (not among the sources),
which runs `k` full timesteps on a row. -/
def run [HasSqrt α] (k : ℕ) (U : ℤ → SP3 α) : ℤ → SP3 α :=
  fullStep^[k] U

/-- Modelled from the spec: the Sod grid of `nPixel = 2000` cells with `x`
ranging symmetrically about 0 (the grid is not among the sources). The cells are
numbered `-1000, ..., 999`; cell `i` sits at `x = (i + 1/2)*DX` and holds what
`init` writes there. -/
def sodRow : ℤ → SP3 α :=
  fun i => init (((i : α) + 1 / 2) * DX)

/-- The weight that `limitedReconstruction` gives to the neighbour's value:
`0.5 * limiter` in the first branch (lines 28-29), zero in the other. -/
def limiterWeight (r : Dbl α) : α :=
  match r with
  | Dbl.fin x => if 0 < x then 0.5 * min x 1 else 0
  | Dbl.inf => 0
  | Dbl.nan => 0

/-- The local `rho` of `eulerFlux` (line 50): the averaged density. -/
def rhoAvg [HasSqrt α] (wMinus wPlus : Vec3 α) : α :=
  HasSqrt.sqrt (wMinus 0) * HasSqrt.sqrt (wPlus 0)

/-- The local `u` of `eulerFlux` (lines 51-52): the averaged velocity. -/
def uAvg [HasSqrt α] (wMinus wPlus : Vec3 α) : α :=
  (HasSqrt.sqrt (wMinus 0) * (wMinus 1 / wMinus 0)
      + HasSqrt.sqrt (wPlus 0) * (wPlus 1 / wPlus 0))
    / (HasSqrt.sqrt (wMinus 0) + HasSqrt.sqrt (wPlus 0))

/-- The local `E` of `eulerFlux` (lines 53-54): the averaged specific energy. -/
def EAvg [HasSqrt α] (wMinus wPlus : Vec3 α) : α :=
  (HasSqrt.sqrt (wMinus 0) * (wMinus 2 / wMinus 0)
      + HasSqrt.sqrt (wPlus 0) * (wPlus 2 / wPlus 0))
    / (HasSqrt.sqrt (wMinus 0) + HasSqrt.sqrt (wPlus 0))

/-- The local `p` of `eulerFlux` (line 55): the pressure of the averaged state. -/
def pAvg [HasSqrt α] (wMinus wPlus : Vec3 α) : α :=
  pressure (rhoAvg wMinus wPlus) (rhoAvg wMinus wPlus * uAvg wMinus wPlus)
    (rhoAvg wMinus wPlus * EAvg wMinus wPlus)

/-- The function `eulerFlux` in exact arithmetic with the square root of a
negative number left without a value: `none` when one of the three calls of
`sqrt` (lines 49 and 57) receives a negative argument, where the program
computes a NaN, and the value of `eulerFlux` otherwise. The arguments are
`rhoMinus`, `rhoPlus` and `gamma * p / rho` for the averaged state. -/
def eulerFluxChecked [HasSqrt α] (wMinus wPlus : Vec3 α) : Option (Vec3 α) :=
  if 0 ≤ wMinus 0 ∧ 0 ≤ wPlus 0
      ∧ 0 ≤ 1.4 * pAvg wMinus wPlus / rhoAvg wMinus wPlus then
    some (eulerFlux wMinus wPlus)
  else
    none

/-- A sample row for `updateStep0`: the two Sod states, with a finite ratio on
the right and an infinite one on the left. -/
def sampleRow4 : ℤ → SP4 ℚ :=
  fun i => if i > 0 then { f0 := 1, f1 := 0, f2 := 5 / 2, f3 := Dbl.fin 1 }
           else { f0 := 1 / 8, f1 := 0, f2 := 1 / 4, f3 := Dbl.inf }

/-- A sample row for `updateStep1`. -/
def sampleRow7 : ℤ → SP7 ℚ :=
  fun i => if i > 0 then
             { f0 := 1, f1 := 0, f2 := 5 / 2, f3 := 1, f4 := 1 / 10, f5 := 5 / 2,
               f6 := Dbl.fin 2 }
           else
             { f0 := 1 / 8, f1 := 0, f2 := 1 / 4, f3 := 1 / 4, f4 := 0, f5 := 1 / 4,
               f6 := Dbl.nan }

/-- A sample ring of three cells for `updateStep0`. -/
def sampleRing4 : Fin 3 → SP4 ℚ := fun i => sampleRow4 (i.val : ℤ)

/-- A sample ring of three cells for `updateStep1`. -/
def sampleRing7 : Fin 3 → SP7 ℚ := fun i => sampleRow7 (i.val : ℤ)

end Code

/-- A `double` (IEEE 754 binary64). `fin s m x` is the finite number
`(-1)^s * m * 2^(x - 1074)`; it is in the form the machine holds when
`m < 2^53`, `x ≤ 2045` and (`x = 0` or `2^52 ≤ m`): `x = 0` gives the zeros and
the subnormal numbers. `inf s` is the infinity of sign `s`; `nan` stands for
every NaN. -/
inductive F64 where
  | fin (s : Bool) (m : ℕ) (x : ℕ)
  | inf (s : Bool)
  | nan
  deriving DecidableEq, Repr

namespace F64

/-- One step of a bit search: add `k` to `b` when `2^(b+k) ≤ M`. -/
def bitStep (M k b : ℕ) : ℕ :=
  bif Nat.ble (Nat.pow 2 (b + k)) M then b + k else b

/-- The number `⌊log₂ M⌋`, for `0 < M < 2^256`. -/
def ilog2 (M : ℕ) : ℕ :=
  bitStep M 1 (bitStep M 2 (bitStep M 4 (bitStep M 8 (bitStep M 16 (bitStep M 32
    (bitStep M 64 (bitStep M 128 0)))))))

/-- The number `⌊log₂ M⌋` again, read off at once when it is `h` or `h + 1` and
searched for otherwise: `h` is a guess that shortens the search. -/
def ilog2H (h M : ℕ) : ℕ :=
  bif Nat.ble (Nat.pow 2 h) M && Nat.blt M (Nat.pow 2 (h + 2)) then
    (bif Nat.blt M (Nat.pow 2 (h + 1)) then h else h + 1)
  else ilog2 M

/-- Round the positive number `M * 2^(E - 4096)` to the `double` whose last
place is `2^(Q - 4096)`, ties to the even significand, and attach the sign `s`.
A result of `2^1024` or more is the infinity. -/
def roundAt (s : Bool) (M E Q : ℕ) : F64 :=
  bif Nat.ble Q E then
    (bif Nat.blt 5067 Q then inf s else fin s (M * Nat.pow 2 (E - Q)) (Q - 3022))
  else
    let m0 := M / Nat.pow 2 (Q - E)
    let r := M % Nat.pow 2 (Q - E)
    let half := Nat.pow 2 (Q - E - 1)
    let up := Nat.blt half r || (Nat.beq r half && Nat.beq (m0 % 2) 1)
    let m1 := bif up then m0 + 1 else m0
    bif Nat.beq m1 (Nat.pow 2 53) then
      (bif Nat.blt 5067 (Q + 1) then inf s else fin s (Nat.pow 2 52) (Q + 1 - 3022))
    else
      (bif Nat.blt 5067 Q then inf s else fin s m1 (Q - 3022))

/-- Round the number `M * 2^(E - 4096)` to the nearest `double`, ties to the
even significand (the default rounding of IEEE 754), and attach the sign `s`.
The last place kept is 52 places below the leading bit of `M`, but not below the
last place `2^-1074` of the subnormal numbers (`Q = 3022`). `h` is a guess of the
position of the leading bit of `M`. -/
def round (h : ℕ) (s : Bool) (M E : ℕ) : F64 :=
  bif Nat.beq M 0 then fin s 0 0
  else roundAt s M E (bif Nat.ble (E + ilog2H h M - 52) 3022 then 3022
    else E + ilog2H h M - 52)

/-- The unary minus. -/
def neg : F64 → F64
  | fin s m x => fin (!s) m x
  | inf s => inf (!s)
  | nan => nan

/-- The sum of two finite numbers of the same sign `s`, rounded. Adding a zero
changes nothing. When the exponents are more than 64 apart the smaller number
only decides the direction of rounding, and is replaced by one unit three
places below the larger one. -/
def addMag (s : Bool) (m x n y : ℕ) : F64 :=
  bif Nat.beq n 0 then fin s m x
  else bif Nat.beq m 0 then fin s n y
  else bif Nat.blt (y + 64) x then round 55 s (m * 8 + 1) (x + 3019)
  else bif Nat.blt (x + 64) y then round 55 s (n * 8 + 1) (y + 3019)
  else bif Nat.ble y x then round (52 + (x - y)) s (m * Nat.pow 2 (x - y) + n) (y + 3022)
  else round (52 + (y - x)) s (m + n * Nat.pow 2 (y - x)) (x + 3022)

/-- The difference of the magnitudes `a * 2^(e - 4096)` and `b * 2^(e - 4096)`
with the sign `s` of the first: an exact zero result is `+0`. -/
def subAligned (h : ℕ) (s : Bool) (a b e : ℕ) : F64 :=
  bif Nat.beq a b then fin false 0 0
  else bif Nat.blt b a then round h s (a - b) e
  else round h (!s) (b - a) e

/-- The sum of a finite number of sign `s` and magnitude `m * 2^x` and a finite
number of the other sign and magnitude `n * 2^y`, rounded. An exact zero result
is `+0`. -/
def subMag (s : Bool) (m x n y : ℕ) : F64 :=
  bif Nat.beq n 0 then (bif Nat.beq m 0 then fin false 0 x else fin s m x)
  else bif Nat.beq m 0 then fin (!s) n y
  else bif Nat.blt (y + 64) x then round 54 s (m * 8 - 1) (x + 3019)
  else bif Nat.blt (x + 64) y then round 54 (!s) (n * 8 - 1) (y + 3019)
  else bif Nat.ble y x then subAligned (51 + (x - y)) s (m * Nat.pow 2 (x - y)) n (y + 3022)
  else subAligned (51 + (y - x)) s m (n * Nat.pow 2 (y - x)) (x + 3022)

/-- The operator `+` of `double`. -/
def add : F64 → F64 → F64
  | nan, _ => nan
  | _, nan => nan
  | inf s, inf t => bif xor s t then nan else inf s
  | inf s, fin _ _ _ => inf s
  | fin _ _ _, inf t => inf t
  | fin s m x, fin t n y => bif xor s t then subMag s m x n y else addMag s m x n y

/-- The operator `-` of `double`. -/
def sub (a b : F64) : F64 := add a (neg b)

/-- The operator `*` of `double`. -/
def mul : F64 → F64 → F64
  | nan, _ => nan
  | _, nan => nan
  | inf s, inf t => inf (xor s t)
  | inf s, fin t n _ => bif Nat.beq n 0 then nan else inf (xor s t)
  | fin s m _, inf t => bif Nat.beq m 0 then nan else inf (xor s t)
  | fin s m x, fin t n y => round 104 (xor s t) (m * n) (x + y + 1948)

/-- The operator `/` of `double`: the quotient is taken to 116 places, with one
more place that records a remainder. A non-zero number over zero is an
infinity; `0/0` and `inf/inf` are NaN. -/
def div : F64 → F64 → F64
  | nan, _ => nan
  | _, nan => nan
  | inf _, inf _ => nan
  | inf s, fin t _ _ => inf (xor s t)
  | fin s _ _, inf t => fin (xor s t) 0 0
  | fin s m x, fin t n y =>
    bif Nat.beq n 0 then (bif Nat.beq m 0 then nan else inf (xor s t))
    else
      round 116 (xor s t)
        (2 * (m * Nat.pow 2 116 / n) + (bif Nat.beq (m * Nat.pow 2 116 % n) 0 then 0 else 1))
        (x + 3979 - y)

/-- Newton's iteration for the integer square root, from a start above it. -/
def isqrtAux : ℕ → ℕ → ℕ → ℕ
  | 0, _, g => g
  | fuel + 1, n, g =>
    bif Nat.blt ((g + n / g) / 2) g then isqrtAux fuel n ((g + n / g) / 2) else g

/-- The number `⌊√n⌋`, for `n < 2^256`. -/
def isqrt (n : ℕ) : ℕ :=
  bif Nat.beq n 0 then 0 else isqrtAux 300 n (Nat.pow 2 (ilog2H 180 n / 2 + 1))

/-- The function `sqrt` of `<cmath>`: NaN on a negative number, correctly
rounded otherwise. The root of `m * 2^(128 + x % 2)` is taken to the last unit,
with one more place that records a remainder. -/
def sqrt : F64 → F64
  | nan => nan
  | inf s => bif s then nan else inf false
  | fin s m x =>
    bif Nat.beq m 0 then fin s 0 0
    else bif s then nan
    else
      round 91 false
        (2 * isqrt (m * Nat.pow 2 (128 + x % 2))
          + (bif Nat.beq
                (isqrt (m * Nat.pow 2 (128 + x % 2)) * isqrt (m * Nat.pow 2 (128 + x % 2)))
                (m * Nat.pow 2 (128 + x % 2)) then 0 else 1))
        (3494 + x / 2)

/-- The function `fabs` of `<cmath>`. -/
def abs : F64 → F64
  | fin _ m x => fin false m x
  | inf _ => inf false
  | nan => nan

/-- The test `std::isfinite`. -/
def isfinite : F64 → Bool
  | fin _ _ _ => true
  | inf _ => false
  | nan => false

/-- The test for a negative zero `-0.0`. -/
def isNegZero : F64 → Bool
  | fin s m _ => s && Nat.beq m 0
  | inf _ => false
  | nan => false

/-- The comparison of the magnitudes `m * 2^x < n * 2^y`. -/
def ltMag (m x n y : ℕ) : Bool :=
  bif Nat.ble y x then Nat.blt (m * Nat.pow 2 (x - y)) n
  else Nat.blt m (n * Nat.pow 2 (y - x))

/-- The test `a < b` of `double`: false when either side is NaN, and `-0 < +0`
is false. -/
def lt : F64 → F64 → Bool
  | nan, _ => false
  | _, nan => false
  | inf s, inf t => s && !t
  | inf s, fin _ _ _ => s
  | fin _ _ _, inf t => !t
  | fin s m x, fin t n y =>
    match s, t with
    | false, false => ltMag m x n y
    | true, true => ltMag n y m x
    | true, false => Nat.blt 0 m || Nat.blt 0 n
    | false, true => false

/-- The test `a > b`. -/
def gt (a b : F64) : Bool := lt b a

/-- The function `std::min(a, b)`: `b` when `b < a`, else `a`. -/
def min (a b : F64) : F64 := bif lt b a then b else a

/-- The `double` nearest to the rational `N / D` with sign `s`, for
`2^-60 ≤ N/D < 2^60` (or `N = 0`): the value of a decimal literal. -/
def ofQ (s : Bool) (N D : ℕ) : F64 :=
  round 128 s (2 * (N * Nat.pow 2 128 / D) + (bif Nat.beq (N * Nat.pow 2 128 % D) 0 then 0 else 1))
    3967

instance : Add F64 := ⟨F64.add⟩
instance : Sub F64 := ⟨F64.sub⟩
instance : Mul F64 := ⟨F64.mul⟩
instance : Div F64 := ⟨F64.div⟩
instance : Neg F64 := ⟨F64.neg⟩

/-- A decimal literal such as `0.5` or `1.4`. -/
instance : OfScientific F64 :=
  ⟨fun m s e => bif s then ofQ false m (Nat.pow 10 e) else ofQ false (m * Nat.pow 10 e) 1⟩

/-- An integer literal such as `1`, converted to `double`. -/
instance (n : ℕ) : OfNat F64 n := ⟨ofQ false n 1⟩

end F64

namespace B64

/-- The constant `DT` (line 4), as the `double` nearest to `0.02`. -/
def DT : F64 := 0.02

/-- The constant `DX` (line 4). -/
def DX : F64 := 0.5

/-- The function `pressure` (lines 7-11) on `double`. -/
def pressure (rho rhoU rhoE : F64) : F64 :=
  let kineticE := 0.5 * rhoU * rhoU / rho
  let gamma : F64 := 1.4
  (gamma - 1) * (rhoE - kineticE)

/-- The function `limitedReconstruction` (lines 26-33) on `double`. -/
def limitedReconstruction (w wNbr r : F64) : F64 :=
  if F64.isfinite r && F64.gt r 0 then
    let limiter := F64.min r 1.0
    w + 0.5 * (wNbr - w) * limiter
  else
    w

/-- The function `eulerFlux` (lines 35-62) on `double`, every operation rounded
as the machine rounds it and in the order in which the source writes it.
`flux0`, `flux1`, `flux2` are `flux[0..2]` after lines 43-47; the result is
`flux` after the three `+=` of lines 59-61. -/
def eulerFlux (wMinus wPlus : Vec3 F64) : Vec3 F64 :=
  let rhoMinus := wMinus 0
  let rhoPlus := wPlus 0
  let uMinus := wMinus 1 / rhoMinus
  let uPlus := wPlus 1 / rhoPlus
  let EMinus := wMinus 2 / rhoMinus
  let EPlus := wPlus 2 / rhoPlus
  let pMinus := pressure (wMinus 0) (wMinus 1) (wMinus 2)
  let pPlus := pressure (wPlus 0) (wPlus 1) (wPlus 2)
  let flux0 := 0.5 * (rhoPlus * uPlus + rhoMinus * uMinus)
  let flux1 := 0.5 * (rhoPlus * uPlus * uPlus + pPlus
                     + rhoMinus * uMinus * uMinus + pMinus)
  let flux2 := 0.5 * (rhoPlus * uPlus * EPlus + uPlus * pPlus
                     + rhoMinus * uMinus * EMinus + uMinus * pMinus)
  let rhoSqrtMinus := F64.sqrt rhoMinus
  let rhoSqrtPlus := F64.sqrt rhoPlus
  let rho := rhoSqrtMinus * rhoSqrtPlus
  let u := (rhoSqrtMinus * uMinus + rhoSqrtPlus * uPlus)
           / (rhoSqrtMinus + rhoSqrtPlus)
  let E := (rhoSqrtMinus * EMinus + rhoSqrtPlus * EPlus)
           / (rhoSqrtMinus + rhoSqrtPlus)
  let p := pressure rho (rho * u) (rho * E)
  let gamma : F64 := 1.4
  let spectralRadius := F64.sqrt (gamma * p / rho) + F64.abs u
  ![flux0 + 0.5 * spectralRadius * (wMinus 0 - wPlus 0),
    flux1 + 0.5 * spectralRadius * (wMinus 1 - wPlus 1),
    flux2 + 0.5 * spectralRadius * (wMinus 2 - wPlus 2)]

/-- The argument `gamma * p / rho` of the sound-speed `sqrt` of line 57, on
`double`. -/
def soundSpeedArg (wMinus wPlus : Vec3 F64) : F64 :=
  let rhoMinus := wMinus 0
  let rhoPlus := wPlus 0
  let uMinus := wMinus 1 / rhoMinus
  let uPlus := wPlus 1 / rhoPlus
  let EMinus := wMinus 2 / rhoMinus
  let EPlus := wPlus 2 / rhoPlus
  let rhoSqrtMinus := F64.sqrt rhoMinus
  let rhoSqrtPlus := F64.sqrt rhoPlus
  let rho := rhoSqrtMinus * rhoSqrtPlus
  let u := (rhoSqrtMinus * uMinus + rhoSqrtPlus * uPlus)
           / (rhoSqrtMinus + rhoSqrtPlus)
  let E := (rhoSqrtMinus * EMinus + rhoSqrtPlus * EPlus)
           / (rhoSqrtMinus + rhoSqrtPlus)
  let p := pressure rho (rho * u) (rho * E)
  let gamma : F64 := 1.4
  gamma * p / rho

/-- Modelled from the spec: a `SpatialPoint<nIn, nOut>` on its input side
(`pde_common.h` is not among the sources). Section 6 gives a cell the accessor
`inputs(i)` and the views `nbr(0)`, `nbr(1)` of its left and right neighbours,
which have the same accessor. Here a point is a position `pos` in a row `row`
of cells with `nIn` input fields each: a stage that receives a point can read
every cell of the row through `nbr`, and reads the cells that its body names. -/
structure SpatialPoint (nIn : ℕ) where
  row : ℤ → Fin nIn → F64
  pos : ℤ

/-- Modelled from the spec: the accessor `sp.inputs(i)`. -/
def SpatialPoint.inputs {nIn : ℕ} (sp : SpatialPoint nIn) (i : Fin nIn) : F64 :=
  sp.row sp.pos i

/-- Modelled from the spec: the view `sp.nbr(k)`: the left neighbour for
`k = 0`, the right neighbour for `k = 1`. -/
def SpatialPoint.nbr {nIn : ℕ} (sp : SpatialPoint nIn) (k : Fin 2) : SpatialPoint nIn :=
  { row := sp.row, pos := if k = 0 then sp.pos - 1 else sp.pos + 1 }

/-- The stage `pRatioStep0` (lines 13-24) on `double`; the value is the array of
the four `outputs`. -/
def pRatioStep0 (sp : SpatialPoint 3) : Fin 4 → F64 :=
  let Lp := sp.nbr 0
  let Rp := sp.nbr 1
  let p := pressure (sp.inputs 0) (sp.inputs 1) (sp.inputs 2)
  let pL := pressure (Lp.inputs 0) (Lp.inputs 1) (Lp.inputs 2)
  let pR := pressure (Rp.inputs 0) (Rp.inputs 1) (Rp.inputs 2)
  ![sp.inputs 0, sp.inputs 1, sp.inputs 2, (pR - p) / (p - pL)]

/-- The function `eulerFlux0` (lines 64-75) on `double`, its loop over
`i = 0, 1, 2` written out. -/
def eulerFlux0 (L R : SpatialPoint 4) : Vec3 F64 :=
  let wL : Vec3 F64 :=
    ![limitedReconstruction (L.inputs 0) (R.inputs 0) (L.inputs 3),
      limitedReconstruction (L.inputs 1) (R.inputs 1) (L.inputs 3),
      limitedReconstruction (L.inputs 2) (R.inputs 2) (L.inputs 3)]
  let wR : Vec3 F64 :=
    ![limitedReconstruction (R.inputs 0) (L.inputs 0) (1.0 / R.inputs 3),
      limitedReconstruction (R.inputs 1) (L.inputs 1) (1.0 / R.inputs 3),
      limitedReconstruction (R.inputs 2) (L.inputs 2) (1.0 / R.inputs 3)]
  eulerFlux wL wR

/-- The stage `updateStep0` (lines 77-90) on `double`. -/
def updateStep0 (sp : SpatialPoint 4) : Fin 6 → F64 :=
  let Lp := sp.nbr 0
  let Rp := sp.nbr 1
  let fluxL := eulerFlux0 Lp sp
  let fluxR := eulerFlux0 sp Rp
  ![sp.inputs 0, sp.inputs 1, sp.inputs 2,
    sp.inputs 0 - 0.5 * DT * (fluxR 0 - fluxL 0) / DX,
    sp.inputs 1 - 0.5 * DT * (fluxR 1 - fluxL 1) / DX,
    sp.inputs 2 - 0.5 * DT * (fluxR 2 - fluxL 2) / DX]

/-- The stage `pRatioStep1` (lines 92-103) on `double`. -/
def pRatioStep1 (sp : SpatialPoint 6) : Fin 7 → F64 :=
  let Lp := sp.nbr 0
  let Rp := sp.nbr 1
  let p := pressure (sp.inputs 3) (sp.inputs 4) (sp.inputs 5)
  let pL := pressure (Lp.inputs 3) (Lp.inputs 4) (Lp.inputs 5)
  let pR := pressure (Rp.inputs 3) (Rp.inputs 4) (Rp.inputs 5)
  ![sp.inputs 0, sp.inputs 1, sp.inputs 2, sp.inputs 3, sp.inputs 4, sp.inputs 5,
    (pR - p) / (p - pL)]

/-- The function `eulerFlux1` (lines 105-116) on `double`, its loop over
`i = 3, 4, 5` written out. -/
def eulerFlux1 (L R : SpatialPoint 7) : Vec3 F64 :=
  let wL : Vec3 F64 :=
    ![limitedReconstruction (L.inputs 3) (R.inputs 3) (L.inputs 6),
      limitedReconstruction (L.inputs 4) (R.inputs 4) (L.inputs 6),
      limitedReconstruction (L.inputs 5) (R.inputs 5) (L.inputs 6)]
  let wR : Vec3 F64 :=
    ![limitedReconstruction (R.inputs 3) (L.inputs 3) (1.0 / R.inputs 6),
      limitedReconstruction (R.inputs 4) (L.inputs 4) (1.0 / R.inputs 6),
      limitedReconstruction (R.inputs 5) (L.inputs 5) (1.0 / R.inputs 6)]
  eulerFlux wL wR

/-- The stage `updateStep1` (lines 118-127) on `double`. -/
def updateStep1 (sp : SpatialPoint 7) : Vec3 F64 :=
  let Lp := sp.nbr 0
  let Rp := sp.nbr 1
  let fluxL := eulerFlux1 Lp sp
  let fluxR := eulerFlux1 sp Rp
  ![sp.inputs 0 - DT * (fluxR 0 - fluxL 0) / DX,
    sp.inputs 1 - DT * (fluxR 1 - fluxL 1) / DX,
    sp.inputs 2 - DT * (fluxR 2 - fluxL 2) / DX]

/-- The stage `init` (lines 129-140) on `double`; `x` is `sp.x`. -/
def init (x : F64) : Vec3 F64 :=
  let gamma : F64 := 1.4
  if F64.gt x 0 then
    ![1.0, 0.0, 1.0 / (gamma - 1)]
  else
    ![0.125, 0.0, 0.1 / (gamma - 1)]

/-- The mirror image `m(rho, rhoU, rhoE) = (rho, -rhoU, rhoE)` of a triple of
`double`. -/
def mirror (w : Vec3 F64) : Vec3 F64 := ![w 0, -(w 1), w 2]

/-- The spec's face rule (section 4.3) on `double`: between a left triple `wl`
with ratio `rL` and a right triple `wr` with ratio `rR`, component `i` of the
left face state is `limitedReconstruction(wl_i, wr_i, rL)`, component `i` of the
right face state is `limitedReconstruction(wr_i, wl_i, 1/rR)`, and the face flux
is `eulerFlux` of the two. -/
def faceRule (wl wr : Vec3 F64) (rL rR : F64) : Vec3 F64 :=
  eulerFlux (fun i => limitedReconstruction (wl i) (wr i) rL)
            (fun i => limitedReconstruction (wr i) (wl i) (F64.div 1.0 rR))

/-- The conserved triple that `eulerFlux0` reads from a cell: fields 0, 1, 2. -/
def fields012 (sp : SpatialPoint 4) : Vec3 F64 :=
  ![sp.inputs 0, sp.inputs 1, sp.inputs 2]

/-- The half-step triple that `eulerFlux1` reads from a cell: fields 3, 4, 5. -/
def fields345 (sp : SpatialPoint 7) : Vec3 F64 :=
  ![sp.inputs 3, sp.inputs 4, sp.inputs 5]

/-- The cell carrying `(a, b, c, r)` for a cell carrying `(.., a, b, c, r)`: the
fields 3, 4, 5, 6 of every cell of the row, as a row of four-field cells. -/
def tail4 (sp : SpatialPoint 7) : SpatialPoint 4 :=
  { row := fun j => ![sp.row j 3, sp.row j 4, sp.row j 5, sp.row j 6], pos := sp.pos }

/-- Modelled from the spec: the grid of section 6, applying a stage to every
cell of a row (the grid and the driver are not among the sources). The cells are
numbered by the integers, and every cell reads the previous generation. -/
def onGrid {n m : ℕ} (stage : SpatialPoint n → Fin m → F64) (row : ℤ → Fin n → F64) :
    ℤ → Fin m → F64 :=
  fun i => stage { row := row, pos := i }

/-- The four stages chained on a row in the order of section 2 of the spec. -/
def fullStep (U : ℤ → Vec3 F64) : ℤ → Vec3 F64 :=
  onGrid updateStep1 (onGrid pRatioStep1 (onGrid updateStep0 (onGrid pRatioStep0 U)))

/-- Modelled from the spec: the time-stepping driver (not among the sources),
which runs `k` full timesteps on a row. -/
def run (k : ℕ) (U : ℤ → Vec3 F64) : ℤ → Vec3 F64 :=
  fullStep^[k] U

/-- Modelled from the spec: the position `x = (i + 1/2)*DX` of cell `i` of the
Sod grid, which is the `double` `±|2i + 1| * 2^-2`; `init` compares it with
zero and reads nothing else of it. -/
def cellX (i : ℤ) : F64 :=
  F64.fin (decide (i < 0)) (2 * i + 1).natAbs 1072

/-- Modelled from the spec: the Sod grid of `nPixel = 2000` cells with `x`
ranging symmetrically about 0 (the grid is not among the sources). The cells are
numbered `-1000, ..., 999` and cell `i` holds what `init` writes at its
position; the row continues with the same two states past both ends. -/
def sodRow : ℤ → Vec3 F64 :=
  fun i => init (cellX i)

end B64

section Triples

variable {α : Type}

/-- Component 0 of a literal triple. -/
theorem Vec3.get0 (a b c : α) : (![a, b, c] : Vec3 α) 0 = a := rfl

/-- Component 1 of a literal triple. -/
theorem Vec3.get1 (a b c : α) : (![a, b, c] : Vec3 α) 1 = b := rfl

/-- Component 2 of a literal triple. -/
theorem Vec3.get2 (a b c : α) : (![a, b, c] : Vec3 α) 2 = c := rfl

/-- Two triples with the same three components are equal. -/
theorem Vec3.ext3 {f g : Vec3 α} (h0 : f 0 = g 0) (h1 : f 1 = g 1) (h2 : f 2 = g 2) :
    f = g := by
  funext i
  fin_cases i
  · exact h0
  · exact h1
  · exact h2

/-- A function on `Fin 3` is the literal triple of its three values. -/
theorem Vec3.eta (f : Fin 3 → α) : (fun i => f i) = ![f 0, f 1, f 2] := by
  funext i
  fin_cases i <;> rfl

/-- Two cells with the same three fields are equal. -/
theorem SP3.eq_of_fields {a b : SP3 α} (h0 : a.f0 = b.f0) (h1 : a.f1 = b.f1) (h2 : a.f2 = b.f2) :
    a = b := by
  cases a
  cases b
  simp only [SP3.mk.injEq]
  exact ⟨h0, h1, h2⟩

end Triples

section Theorems

variable {α : Type} [LinearOrderedField α]

/-- The limiter `min r 1` of a positive ratio lies in `(0, 1]`. -/
theorem limiter_pos_le_one (x : α) (hx : 0 < x) : 0 < min x 1 ∧ min x 1 ≤ 1 :=
  ⟨lt_min hx one_pos, min_le_right x 1⟩

/-- Claim C2, amended (limiter boundedness in exact arithmetic): for a finite
ratio `r > 0` the reconstruction is `w + 0.5*(wNbr - w)*min(r, 1)`; computed
without rounding it lies between `w` and the simple average `(w + wNbr)/2`,
hence between `w` and `wNbr`; for `r ≥ 1` it is the simple average. -/
theorem limitedReconstruction_bounded (w wNbr r : α) (hr : 0 < r) :
    limitedReconstruction w wNbr (Dbl.fin r) = w + 0.5 * (wNbr - w) * min r 1
    ∧ min w ((w + wNbr) / 2) ≤ limitedReconstruction w wNbr (Dbl.fin r)
    ∧ limitedReconstruction w wNbr (Dbl.fin r) ≤ max w ((w + wNbr) / 2)
    ∧ min w wNbr ≤ limitedReconstruction w wNbr (Dbl.fin r)
    ∧ limitedReconstruction w wNbr (Dbl.fin r) ≤ max w wNbr
    ∧ (1 ≤ r → limitedReconstruction w wNbr (Dbl.fin r) = (w + wNbr) / 2) := by
  have hval : limitedReconstruction w wNbr (Dbl.fin r)
      = w + 0.5 * (wNbr - w) * min r 1 := by
    simp only [limitedReconstruction, if_pos hr]
  obtain ⟨hm0, hm1⟩ := limiter_pos_le_one r hr
  have hhalf : (0.5 : α) = 1 / 2 := by norm_num
  rw [hval, hhalf]
  refine ⟨rfl, ?_, ?_, ?_, ?_, ?_⟩
  · rcases le_total w wNbr with h | h
    · have : min w ((w + wNbr) / 2) = w := min_eq_left (by linarith)
      rw [this]
      nlinarith [mul_nonneg (sub_nonneg.mpr h) hm0.le]
    · have : min w ((w + wNbr) / 2) = (w + wNbr) / 2 := min_eq_right (by linarith)
      rw [this]
      nlinarith [mul_nonneg (sub_nonneg.mpr h) (sub_nonneg.mpr hm1)]
  · rcases le_total w wNbr with h | h
    · have : max w ((w + wNbr) / 2) = (w + wNbr) / 2 := max_eq_right (by linarith)
      rw [this]
      nlinarith [mul_nonneg (sub_nonneg.mpr h) (sub_nonneg.mpr hm1)]
    · have : max w ((w + wNbr) / 2) = w := max_eq_left (by linarith)
      rw [this]
      nlinarith [mul_nonneg (sub_nonneg.mpr h) hm0.le]
  · rcases le_total w wNbr with h | h
    · rw [min_eq_left h]
      nlinarith [mul_nonneg (sub_nonneg.mpr h) hm0.le]
    · rw [min_eq_right h]
      nlinarith [mul_nonneg (sub_nonneg.mpr h) (sub_nonneg.mpr hm1)]
  · rcases le_total w wNbr with h | h
    · rw [max_eq_right h]
      nlinarith [mul_nonneg (sub_nonneg.mpr h) (sub_nonneg.mpr hm1)]
    · rw [max_eq_left h]
      nlinarith [mul_nonneg (sub_nonneg.mpr h) hm0.le]
  · intro h1
    rw [min_eq_right h1]
    ring

/-- Witness of the amended C2 at `w = 1`, `wNbr = 3`, `r = 1/2` over the rationals, where
the reconstruction is `3/2`. -/
theorem limitedReconstruction_bounded_witness :
    (0 : ℚ) < 1 / 2
    ∧ limitedReconstruction (1 : ℚ) 3 (Dbl.fin (1 / 2)) = 3 / 2
    ∧ min (1 : ℚ) 3 ≤ limitedReconstruction (1 : ℚ) 3 (Dbl.fin (1 / 2))
    ∧ limitedReconstruction (1 : ℚ) 3 (Dbl.fin (1 / 2)) ≤ max (1 : ℚ) ((1 + 3) / 2) := by
  have h := limitedReconstruction_bounded (1 : ℚ) 3 (1 / 2) (by norm_num)
  refine ⟨by norm_num, ?_, h.2.2.2.1, h.2.2.1⟩
  rw [h.1]
  norm_num

/-- Claim C3 (limiter fallback): when the ratio is non-finite (an infinity or a
NaN) or is finite and `≤ 0`, the reconstruction is exactly `w`, whatever
`wNbr` is. -/
theorem limitedReconstruction_fallback (w wNbr : α) (r : Dbl α)
    (hr : r.isfinite = false ∨ ∃ x, r = Dbl.fin x ∧ x ≤ 0) :
    limitedReconstruction w wNbr r = w := by
  rcases hr with h | ⟨x, rfl, hx⟩
  · cases r with
    | fin x => simp [Dbl.isfinite] at h
    | inf => rfl
    | nan => rfl
  · simp only [limitedReconstruction, if_neg (not_lt.mpr hx)]

/-- Witness of C3: an infinite ratio, a NaN ratio, and the ratio `-2`, over the
rationals. -/
theorem limitedReconstruction_fallback_witness :
    limitedReconstruction (1 : ℚ) 3 Dbl.inf = 1
    ∧ limitedReconstruction (1 : ℚ) 3 Dbl.nan = 1
    ∧ limitedReconstruction (1 : ℚ) 3 (Dbl.fin (-2)) = 1 :=
  ⟨limitedReconstruction_fallback 1 3 Dbl.inf (Or.inl rfl),
   limitedReconstruction_fallback 1 3 Dbl.nan (Or.inl rfl),
   limitedReconstruction_fallback 1 3 (Dbl.fin (-2)) (Or.inr ⟨-2, rfl, by norm_num⟩)⟩

/-- Claim C10 (equation-of-state consistency): `pressure(1, 0, 1/(1.4 - 1))` is
`1.0`, and this is the pressure of the state that `init` writes at every
position `x > 0`. -/
theorem pressure_right_state (x : α) (hx : 0 < x) :
    pressure (1 : α) 0 (1 / (1.4 - 1)) = 1.0
    ∧ (init x).f0 = 1 ∧ (init x).f1 = 0 ∧ (init x).f2 = 1 / (1.4 - 1)
    ∧ pressure (init x).f0 (init x).f1 (init x).f2 = 1.0 := by
  have hp : pressure (1 : α) 0 (1 / (1.4 - 1)) = 1.0 := by
    simp only [pressure]
    norm_num
  have hi : init x = { f0 := 1.0, f1 := 0.0, f2 := 1.0 / (1.4 - 1) } := by
    simp only [init]
    rw [if_pos hx]
  refine ⟨hp, ?_, ?_, ?_, ?_⟩
  · rw [hi]; norm_num
  · rw [hi]; norm_num
  · rw [hi]; norm_num
  · rw [hi]
    simp only [pressure]
    norm_num

/-- Witness of C10 at the position `x = 1/4` over the rationals. -/
theorem pressure_right_state_witness :
    (0 : ℚ) < 1 / 4 ∧ pressure (1 : ℚ) 0 (1 / (1.4 - 1)) = 1.0
    ∧ pressure (init (1 / 4 : ℚ)).f0 (init (1 / 4 : ℚ)).f1 (init (1 / 4 : ℚ)).f2 = 1.0 :=
  ⟨by norm_num, (pressure_right_state (1 / 4 : ℚ) (by norm_num)).1,
    (pressure_right_state (1 / 4 : ℚ) (by norm_num)).2.2.2.2⟩

/-- A division with a non-zero divisor is the finite field quotient. -/
theorem Dbl.div_of_ne (n d : α) (hd : d ≠ 0) : Dbl.div n d = Dbl.fin (n / d) := by
  simp [Dbl.div, hd]

/-- A division by zero is non-finite. -/
theorem Dbl.div_zero_not_finite (n : α) : (Dbl.div n 0).isfinite = false := by
  by_cases hn : n = 0 <;> simp [Dbl.div, hn, Dbl.isfinite]

/-- The expression `1./r` of a finite non-zero `r` is the field reciprocal. -/
theorem Dbl.recip_of_ne (x : α) (hx : x ≠ 0) : Dbl.recip (Dbl.fin x) = Dbl.fin (1 / x) := by
  simp [Dbl.recip, Dbl.div, hx]

/-- The expression `1./r` of a zero `r` is an infinity. -/
theorem Dbl.recip_zero : Dbl.recip (Dbl.fin (0 : α)) = Dbl.inf := by
  simp [Dbl.recip, Dbl.div]

/-- Claim C9 (ratio stage postcondition): `pRatioStep0` copies fields 0, 1, 2 and
writes into field 3 the quotient `(pR - p)/(p - pL)` of the pressures of the
triples of the cell and its neighbours; `pRatioStep1` copies fields 0..5 and
writes into field 6 the same quotient of the pressures of the half-step triples
(fields 3, 4, 5). The quotient is the division of doubles: the field quotient
when `p ≠ pL`, a non-finite value when `p = pL`. -/
theorem pRatioStep_post (Lp sp Rp : SP3 α) (Lq sq Rq : SP6 α) :
    ((pRatioStep0 Lp sp Rp).f0 = sp.f0
      ∧ (pRatioStep0 Lp sp Rp).f1 = sp.f1
      ∧ (pRatioStep0 Lp sp Rp).f2 = sp.f2
      ∧ (pRatioStep0 Lp sp Rp).f3
          = Dbl.div (pressure Rp.f0 Rp.f1 Rp.f2 - pressure sp.f0 sp.f1 sp.f2)
                    (pressure sp.f0 sp.f1 sp.f2 - pressure Lp.f0 Lp.f1 Lp.f2)
      ∧ (pressure sp.f0 sp.f1 sp.f2 ≠ pressure Lp.f0 Lp.f1 Lp.f2 →
          (pRatioStep0 Lp sp Rp).f3
            = Dbl.fin ((pressure Rp.f0 Rp.f1 Rp.f2 - pressure sp.f0 sp.f1 sp.f2)
                       / (pressure sp.f0 sp.f1 sp.f2 - pressure Lp.f0 Lp.f1 Lp.f2)))
      ∧ (pressure sp.f0 sp.f1 sp.f2 = pressure Lp.f0 Lp.f1 Lp.f2 →
          (pRatioStep0 Lp sp Rp).f3.isfinite = false))
    ∧ ((pRatioStep1 Lq sq Rq).f0 = sq.f0
      ∧ (pRatioStep1 Lq sq Rq).f1 = sq.f1
      ∧ (pRatioStep1 Lq sq Rq).f2 = sq.f2
      ∧ (pRatioStep1 Lq sq Rq).f3 = sq.f3
      ∧ (pRatioStep1 Lq sq Rq).f4 = sq.f4
      ∧ (pRatioStep1 Lq sq Rq).f5 = sq.f5
      ∧ (pRatioStep1 Lq sq Rq).f6
          = Dbl.div (pressure Rq.f3 Rq.f4 Rq.f5 - pressure sq.f3 sq.f4 sq.f5)
                    (pressure sq.f3 sq.f4 sq.f5 - pressure Lq.f3 Lq.f4 Lq.f5)
      ∧ (pressure sq.f3 sq.f4 sq.f5 ≠ pressure Lq.f3 Lq.f4 Lq.f5 →
          (pRatioStep1 Lq sq Rq).f6
            = Dbl.fin ((pressure Rq.f3 Rq.f4 Rq.f5 - pressure sq.f3 sq.f4 sq.f5)
                       / (pressure sq.f3 sq.f4 sq.f5 - pressure Lq.f3 Lq.f4 Lq.f5)))
      ∧ (pressure sq.f3 sq.f4 sq.f5 = pressure Lq.f3 Lq.f4 Lq.f5 →
          (pRatioStep1 Lq sq Rq).f6.isfinite = false)) := by
  refine ⟨⟨rfl, rfl, rfl, rfl, ?_, ?_⟩, ⟨rfl, rfl, rfl, rfl, rfl, rfl, rfl, ?_, ?_⟩⟩
  · intro h
    exact Dbl.div_of_ne _ _ (sub_ne_zero.mpr h)
  · intro h
    show (Dbl.div _ _).isfinite = false
    rw [h, sub_self]
    exact Dbl.div_zero_not_finite _
  · intro h
    exact Dbl.div_of_ne _ _ (sub_ne_zero.mpr h)
  · intro h
    show (Dbl.div _ _).isfinite = false
    rw [h, sub_self]
    exact Dbl.div_zero_not_finite _

/-- Witness of C9 over the rationals: with the left Sod state `(1/8, 0, 1/4)` on
the left of two right states `(1, 0, 5/2)` the pressures are `1/10, 1, 1` and
the ratio is `(1 - 1)/(1 - 1/10) = 0`; between two equal states the divisor is
zero and the ratio is not finite. -/
theorem pRatioStep_post_witness :
    pressure (1 : ℚ) 0 (5 / 2) ≠ pressure (1 / 8 : ℚ) 0 (1 / 4)
    ∧ (pRatioStep0 (SP3.mk (1 / 8 : ℚ) 0 (1 / 4)) (SP3.mk 1 0 (5 / 2)) (SP3.mk 1 0 (5 / 2))).f3
        = Dbl.fin 0
    ∧ (pRatioStep0 (SP3.mk (1 : ℚ) 0 (5 / 2)) (SP3.mk 1 0 (5 / 2)) (SP3.mk 1 0 (5 / 2))).f3.isfinite
        = false := by
  have hne : pressure (1 : ℚ) 0 (5 / 2) ≠ pressure (1 / 8 : ℚ) 0 (1 / 4) := by
    norm_num [pressure]
  refine ⟨hne, ?_, ?_⟩
  · rw [(pRatioStep_post (SP3.mk (1 / 8 : ℚ) 0 (1 / 4)) (SP3.mk 1 0 (5 / 2))
      (SP3.mk 1 0 (5 / 2)) (SP6.mk 0 0 0 0 0 0) (SP6.mk 0 0 0 0 0 0)
      (SP6.mk 0 0 0 0 0 0)).1.2.2.2.2.1 hne]
    norm_num [pressure]
  · exact (pRatioStep_post (SP3.mk (1 : ℚ) 0 (5 / 2)) (SP3.mk 1 0 (5 / 2))
      (SP3.mk 1 0 (5 / 2)) (SP6.mk 0 0 0 0 0 0) (SP6.mk 0 0 0 0 0 0)
      (SP6.mk 0 0 0 0 0 0)).1.2.2.2.2.2 rfl

/-- Telescoping over a block of cells `a..b`: when each cell loses `c` times the
difference of the fluxes `G` through its right and left faces, the block loses
`c` times the difference of the fluxes through its two outer faces. -/
theorem block_telescope (u out : ℤ → α) (G : ℤ → ℤ → α) (c : α)
    (hout : ∀ i, out i = u i - c * (G i (i + 1) - G (i - 1) i))
    (a b : ℤ) (hab : a ≤ b) :
    ∑ i in Finset.Icc a b, out i
      = ∑ i in Finset.Icc a b, u i - c * (G b (b + 1) - G (a - 1) a) := by
  obtain ⟨n, rfl⟩ := Int.le.dest hab
  induction n with
  | zero => simp [hout]
  | succ n ih =>
    have hIcc : Finset.Icc a (a + ((n + 1 : ℕ) : ℤ))
        = insert (a + (n : ℤ) + 1) (Finset.Icc a (a + (n : ℤ))) := by
      ext x
      simp only [Finset.mem_Icc, Finset.mem_insert]
      omega
    have hlast : a + ((n + 1 : ℕ) : ℤ) = a + (n : ℤ) + 1 := by
      push_cast
      ring
    have hnot : a + (n : ℤ) + 1 ∉ Finset.Icc a (a + (n : ℤ)) := by simp
    rw [hIcc, Finset.sum_insert hnot, Finset.sum_insert hnot, ih (by omega), hlast,
      hout (a + (n : ℤ) + 1), add_sub_cancel_right]
    ring

/-- On a ring of cells the face fluxes cancel in pairs: the flux through the
right face of cell `i` is the flux through the left face of cell `i + 1`. -/
theorem ring_telescope {N : ℕ} [NeZero N] (u out : Fin N → α) (G : Fin N → Fin N → α)
    (c : α) (hout : ∀ i, out i = u i - c * (G i (i + 1) - G (i - 1) i)) :
    ∑ i, out i = ∑ i, u i := by
  have hshift : ∑ i, G (i - 1) i = ∑ i, G i (i + 1) := by
    have h := Equiv.sum_comp (Equiv.subRight (1 : Fin N)) (fun j => G j (j + 1))
    simpa [Equiv.subRight, sub_add_cancel] using h
  simp only [hout, Finset.sum_sub_distrib, ← Finset.mul_sum, hshift, sub_self, mul_zero,
    sub_zero]

variable [HasSqrt α]

/-- The result of `eulerFlux` is the central flux plus the dissipation term. -/
theorem eulerFlux_eq_central_add_dissipation (wMinus wPlus : Vec3 α) (i : Fin 3) :
    eulerFlux wMinus wPlus i = centralFlux wMinus wPlus i + dissipation wMinus wPlus i := by
  fin_cases i <;> rfl

/-- The source's spectral radius is the spec's `lambda`. -/
theorem spectralRadius_eq_roeLambda (wMinus wPlus : Vec3 α) :
    spectralRadius wMinus wPlus = roeLambda wMinus wPlus := rfl

/-- The function `eulerFlux0` follows the spec's face rule on fields 0, 1, 2 with
the ratios in field 3. -/
theorem eulerFlux0_eq_limitedFaceFlux (L R : SP4 α) :
    eulerFlux0 L R = limitedFaceFlux L.w R.w L.f3 R.f3 := by
  simp only [limitedFaceFlux, eulerFlux0]
  rw [Vec3.eta (fun i => limitedReconstruction (L.w i) (R.w i) L.f3),
    Vec3.eta (fun i => limitedReconstruction (R.w i) (L.w i) (Dbl.recip R.f3))]
  rfl

/-- The function `eulerFlux1` follows the spec's face rule on fields 3, 4, 5 with
the ratios in field 6. -/
theorem eulerFlux1_eq_limitedFaceFlux (L R : SP7 α) :
    eulerFlux1 L R = limitedFaceFlux L.h R.h L.f6 R.f6 := by
  simp only [limitedFaceFlux, eulerFlux1]
  rw [Vec3.eta (fun i => limitedReconstruction (L.h i) (R.h i) L.f6),
    Vec3.eta (fun i => limitedReconstruction (R.h i) (L.h i) (Dbl.recip R.f6))]
  rfl

/-- The face rule in exact arithmetic: `eulerFlux0(L, R)` is `eulerFlux` of the
two face states reconstructed componentwise from fields 0, 1, 2 with the one
ratio of each cell (field 3 of `L`, the reciprocal of field 3 of `R`);
`eulerFlux1` is the same rule on fields 3, 4, 5 with the ratio in field 6, that
is, `eulerFlux0` on the cells `(f3, f4, f5, f6)`. -/
theorem face_rule_exact (L R : SP4 α) (L1 R1 : SP7 α) :
    eulerFlux0 L R
        = eulerFlux (fun i => limitedReconstruction (L.w i) (R.w i) L.f3)
            (fun i => limitedReconstruction (R.w i) (L.w i) (Dbl.recip R.f3))
    ∧ eulerFlux0 L R = limitedFaceFlux L.w R.w L.f3 R.f3
    ∧ eulerFlux1 L1 R1 = limitedFaceFlux L1.h R1.h L1.f6 R1.f6
    ∧ eulerFlux1 L1 R1 = eulerFlux0 L1.tail4 R1.tail4 :=
  ⟨eulerFlux0_eq_limitedFaceFlux L R, eulerFlux0_eq_limitedFaceFlux L R,
    eulerFlux1_eq_limitedFaceFlux L1 R1, rfl⟩

/-- The field value of `eulerFlux(w, w)` for `rho > 0`: the physical Euler flux
`(rhoU, rhoU^2/rho + p, (rhoU/rho)*(rhoE + p))` with `p = pressure(w)`, the
dissipation term being `0.5*spectralRadius*(w_i - w_i) = 0` for every value of
the spectral radius. -/
theorem eulerFlux_self (w : Vec3 α) (hrho : 0 < w 0) :
    eulerFlux w w
      = ![w 1,
          w 1 ^ 2 / w 0 + pressure (w 0) (w 1) (w 2),
          (w 1 / w 0) * (w 2 + pressure (w 0) (w 1) (w 2))]
    ∧ dissipation w w = ![0, 0, 0]
    ∧ eulerFlux w w = centralFlux w w := by
  have h0 : w 0 ≠ 0 := ne_of_gt hrho
  have hd : dissipation w w = ![0, 0, 0] := by
    refine Vec3.ext3 ?_ ?_ ?_ <;>
      simp only [dissipation, Vec3.get0, Vec3.get1, Vec3.get2, sub_self, mul_zero]
  have hc : eulerFlux w w = centralFlux w w := by
    funext i
    rw [eulerFlux_eq_central_add_dissipation, hd]
    fin_cases i <;> simp
  refine ⟨?_, hd, hc⟩
  rw [hc]
  refine Vec3.ext3 ?_ ?_ ?_
  · simp only [centralFlux, Vec3.get0]
    field_simp
    ring
  · simp only [centralFlux, Vec3.get1]
    field_simp
    ring
  · simp only [centralFlux, Vec3.get2]
    field_simp
    ring

/-- Claim C5 (update formula): each conserved component written by an update
stage is `old - (scale*DT/DX)*(fluxRight - fluxLeft)`, with `fluxLeft` the face
flux between the left neighbour and the cell and `fluxRight` the face flux
between the cell and the right neighbour, `DT = 0.02`, `DX = 0.5`; `scale = 0.5`
in `updateStep0` (factor `0.02`, outputs 3, 4, 5) and `scale = 1.0` in
`updateStep1` (factor `0.04`, outputs 0, 1, 2); `old` is input field 0, 1, 2 in
both stages. -/
theorem updateStep_formula (Lp sp Rp : SP4 α) (Lq sq Rq : SP7 α) :
    ((DT : α) = 0.02 ∧ (DX : α) = 0.5
      ∧ (0.5 * DT / DX : α) = 0.02 ∧ (1.0 * DT / DX : α) = 0.04)
    ∧ ((updateStep0 Lp sp Rp).f3
          = sp.f0 - (0.5 * DT / DX) * (eulerFlux0 sp Rp 0 - eulerFlux0 Lp sp 0)
      ∧ (updateStep0 Lp sp Rp).f4
          = sp.f1 - (0.5 * DT / DX) * (eulerFlux0 sp Rp 1 - eulerFlux0 Lp sp 1)
      ∧ (updateStep0 Lp sp Rp).f5
          = sp.f2 - (0.5 * DT / DX) * (eulerFlux0 sp Rp 2 - eulerFlux0 Lp sp 2))
    ∧ ((updateStep0 Lp sp Rp).f3
          = sp.f0 - 0.02 * (eulerFlux0 sp Rp 0 - eulerFlux0 Lp sp 0)
      ∧ (updateStep0 Lp sp Rp).f4
          = sp.f1 - 0.02 * (eulerFlux0 sp Rp 1 - eulerFlux0 Lp sp 1)
      ∧ (updateStep0 Lp sp Rp).f5
          = sp.f2 - 0.02 * (eulerFlux0 sp Rp 2 - eulerFlux0 Lp sp 2))
    ∧ ((updateStep1 Lq sq Rq).f0
          = sq.f0 - (1.0 * DT / DX) * (eulerFlux1 sq Rq 0 - eulerFlux1 Lq sq 0)
      ∧ (updateStep1 Lq sq Rq).f1
          = sq.f1 - (1.0 * DT / DX) * (eulerFlux1 sq Rq 1 - eulerFlux1 Lq sq 1)
      ∧ (updateStep1 Lq sq Rq).f2
          = sq.f2 - (1.0 * DT / DX) * (eulerFlux1 sq Rq 2 - eulerFlux1 Lq sq 2))
    ∧ ((updateStep1 Lq sq Rq).f0
          = sq.f0 - 0.04 * (eulerFlux1 sq Rq 0 - eulerFlux1 Lq sq 0)
      ∧ (updateStep1 Lq sq Rq).f1
          = sq.f1 - 0.04 * (eulerFlux1 sq Rq 1 - eulerFlux1 Lq sq 1)
      ∧ (updateStep1 Lq sq Rq).f2
          = sq.f2 - 0.04 * (eulerFlux1 sq Rq 2 - eulerFlux1 Lq sq 2)) := by
  have hDT : (DT : α) = 0.02 := rfl
  have hDX : (DX : α) = 0.5 := rfl
  have h0 : (0.5 * DT / DX : α) = 0.02 := by rw [hDT, hDX]; norm_num
  have h1 : (1.0 * DT / DX : α) = 0.04 := by rw [hDT, hDX]; norm_num
  refine ⟨⟨hDT, hDX, h0, h1⟩, ⟨?_, ?_, ?_⟩, ⟨?_, ?_, ?_⟩, ⟨?_, ?_, ?_⟩, ⟨?_, ?_, ?_⟩⟩
  · simp only [updateStep0]; ring
  · simp only [updateStep0]; ring
  · simp only [updateStep0]; ring
  · rw [← h0]; simp only [updateStep0]; ring
  · rw [← h0]; simp only [updateStep0]; ring
  · rw [← h0]; simp only [updateStep0]; ring
  · simp only [updateStep1]; ring
  · simp only [updateStep1]; ring
  · simp only [updateStep1]; ring
  · rw [← h1]; simp only [updateStep1]; ring
  · rw [← h1]; simp only [updateStep1]; ring
  · rw [← h1]; simp only [updateStep1]; ring

/-- Every component written by `updateStep0` on a row, in the form used for
telescoping. -/
theorem onRow_updateStep0_eq (row : ℤ → SP4 α) (i : ℤ) :
    (onRow updateStep0 row i).f3
        = (row i).f0 - 0.5 * DT / DX
          * (eulerFlux0 (row i) (row (i + 1)) 0 - eulerFlux0 (row (i - 1)) (row i) 0)
    ∧ (onRow updateStep0 row i).f4
        = (row i).f1 - 0.5 * DT / DX
          * (eulerFlux0 (row i) (row (i + 1)) 1 - eulerFlux0 (row (i - 1)) (row i) 1)
    ∧ (onRow updateStep0 row i).f5
        = (row i).f2 - 0.5 * DT / DX
          * (eulerFlux0 (row i) (row (i + 1)) 2 - eulerFlux0 (row (i - 1)) (row i) 2) := by
  refine ⟨?_, ?_, ?_⟩ <;> simp only [onRow, updateStep0] <;> ring

/-- Every component written by `updateStep1` on a row, in the form used for
telescoping. -/
theorem onRow_updateStep1_eq (row : ℤ → SP7 α) (i : ℤ) :
    (onRow updateStep1 row i).f0
        = (row i).f0 - DT / DX
          * (eulerFlux1 (row i) (row (i + 1)) 0 - eulerFlux1 (row (i - 1)) (row i) 0)
    ∧ (onRow updateStep1 row i).f1
        = (row i).f1 - DT / DX
          * (eulerFlux1 (row i) (row (i + 1)) 1 - eulerFlux1 (row (i - 1)) (row i) 1)
    ∧ (onRow updateStep1 row i).f2
        = (row i).f2 - DT / DX
          * (eulerFlux1 (row i) (row (i + 1)) 2 - eulerFlux1 (row (i - 1)) (row i) 2) := by
  refine ⟨?_, ?_, ?_⟩ <;> simp only [onRow, updateStep1] <;> ring

/-- Every component written by `updateStep0` on a ring. -/
theorem onRing_updateStep0_eq {N : ℕ} [NeZero N] (row : Fin N → SP4 α) (i : Fin N) :
    (onRing updateStep0 row i).f3
        = (row i).f0 - 0.5 * DT / DX
          * (eulerFlux0 (row i) (row (i + 1)) 0 - eulerFlux0 (row (i - 1)) (row i) 0)
    ∧ (onRing updateStep0 row i).f4
        = (row i).f1 - 0.5 * DT / DX
          * (eulerFlux0 (row i) (row (i + 1)) 1 - eulerFlux0 (row (i - 1)) (row i) 1)
    ∧ (onRing updateStep0 row i).f5
        = (row i).f2 - 0.5 * DT / DX
          * (eulerFlux0 (row i) (row (i + 1)) 2 - eulerFlux0 (row (i - 1)) (row i) 2) := by
  refine ⟨?_, ?_, ?_⟩ <;> simp only [onRing, updateStep0] <;> ring

/-- Every component written by `updateStep1` on a ring. -/
theorem onRing_updateStep1_eq {N : ℕ} [NeZero N] (row : Fin N → SP7 α) (i : Fin N) :
    (onRing updateStep1 row i).f0
        = (row i).f0 - DT / DX
          * (eulerFlux1 (row i) (row (i + 1)) 0 - eulerFlux1 (row (i - 1)) (row i) 0)
    ∧ (onRing updateStep1 row i).f1
        = (row i).f1 - DT / DX
          * (eulerFlux1 (row i) (row (i + 1)) 1 - eulerFlux1 (row (i - 1)) (row i) 1)
    ∧ (onRing updateStep1 row i).f2
        = (row i).f2 - DT / DX
          * (eulerFlux1 (row i) (row (i + 1)) 2 - eulerFlux1 (row (i - 1)) (row i) 2) := by
  refine ⟨?_, ?_, ?_⟩ <;> simp only [onRing, updateStep1] <;> ring

/-- Claim C1 (conservation by telescoping), in exact arithmetic: over a block of
cells `a..b` of any row, the sum of each component written by `updateStep0`
(outputs 3, 4, 5) is the sum of the inputs 0, 1, 2 minus `0.5*DT/DX` times the
difference of the `eulerFlux0` face fluxes at the two ends of the block, and the
sum of each component written by `updateStep1` (outputs 0, 1, 2) is the sum of
the inputs 0, 1, 2 minus `DT/DX` times the difference of the `eulerFlux1` face
fluxes at the two ends; on a ring of `n + 1` cells with periodic neighbour
access the three sums are unchanged by either stage. All field values, the
ratio fields included, are arbitrary. -/
theorem conservation_telescoping (row0 : ℤ → SP4 α) (row1 : ℤ → SP7 α) (a b : ℤ)
    (hab : a ≤ b) (n : ℕ) (ring0 : Fin (n + 1) → SP4 α) (ring1 : Fin (n + 1) → SP7 α) :
    (∑ i in Finset.Icc a b, (onRow updateStep0 row0 i).f3
        = ∑ i in Finset.Icc a b, (row0 i).f0 - 0.5 * DT / DX
          * (eulerFlux0 (row0 b) (row0 (b + 1)) 0 - eulerFlux0 (row0 (a - 1)) (row0 a) 0)
      ∧ ∑ i in Finset.Icc a b, (onRow updateStep0 row0 i).f4
        = ∑ i in Finset.Icc a b, (row0 i).f1 - 0.5 * DT / DX
          * (eulerFlux0 (row0 b) (row0 (b + 1)) 1 - eulerFlux0 (row0 (a - 1)) (row0 a) 1)
      ∧ ∑ i in Finset.Icc a b, (onRow updateStep0 row0 i).f5
        = ∑ i in Finset.Icc a b, (row0 i).f2 - 0.5 * DT / DX
          * (eulerFlux0 (row0 b) (row0 (b + 1)) 2 - eulerFlux0 (row0 (a - 1)) (row0 a) 2))
    ∧ (∑ i in Finset.Icc a b, (onRow updateStep1 row1 i).f0
        = ∑ i in Finset.Icc a b, (row1 i).f0 - DT / DX
          * (eulerFlux1 (row1 b) (row1 (b + 1)) 0 - eulerFlux1 (row1 (a - 1)) (row1 a) 0)
      ∧ ∑ i in Finset.Icc a b, (onRow updateStep1 row1 i).f1
        = ∑ i in Finset.Icc a b, (row1 i).f1 - DT / DX
          * (eulerFlux1 (row1 b) (row1 (b + 1)) 1 - eulerFlux1 (row1 (a - 1)) (row1 a) 1)
      ∧ ∑ i in Finset.Icc a b, (onRow updateStep1 row1 i).f2
        = ∑ i in Finset.Icc a b, (row1 i).f2 - DT / DX
          * (eulerFlux1 (row1 b) (row1 (b + 1)) 2 - eulerFlux1 (row1 (a - 1)) (row1 a) 2))
    ∧ (∑ i, (onRing updateStep0 ring0 i).f3 = ∑ i, (ring0 i).f0
      ∧ ∑ i, (onRing updateStep0 ring0 i).f4 = ∑ i, (ring0 i).f1
      ∧ ∑ i, (onRing updateStep0 ring0 i).f5 = ∑ i, (ring0 i).f2)
    ∧ (∑ i, (onRing updateStep1 ring1 i).f0 = ∑ i, (ring1 i).f0
      ∧ ∑ i, (onRing updateStep1 ring1 i).f1 = ∑ i, (ring1 i).f1
      ∧ ∑ i, (onRing updateStep1 ring1 i).f2 = ∑ i, (ring1 i).f2) := by
  refine ⟨⟨?_, ?_, ?_⟩, ⟨?_, ?_, ?_⟩, ⟨?_, ?_, ?_⟩, ⟨?_, ?_, ?_⟩⟩
  · exact block_telescope _ _ (fun i j => eulerFlux0 (row0 i) (row0 j) 0) _
      (fun i => (onRow_updateStep0_eq row0 i).1) a b hab
  · exact block_telescope _ _ (fun i j => eulerFlux0 (row0 i) (row0 j) 1) _
      (fun i => (onRow_updateStep0_eq row0 i).2.1) a b hab
  · exact block_telescope _ _ (fun i j => eulerFlux0 (row0 i) (row0 j) 2) _
      (fun i => (onRow_updateStep0_eq row0 i).2.2) a b hab
  · exact block_telescope _ _ (fun i j => eulerFlux1 (row1 i) (row1 j) 0) _
      (fun i => (onRow_updateStep1_eq row1 i).1) a b hab
  · exact block_telescope _ _ (fun i j => eulerFlux1 (row1 i) (row1 j) 1) _
      (fun i => (onRow_updateStep1_eq row1 i).2.1) a b hab
  · exact block_telescope _ _ (fun i j => eulerFlux1 (row1 i) (row1 j) 2) _
      (fun i => (onRow_updateStep1_eq row1 i).2.2) a b hab
  · exact ring_telescope _ _ (fun i j => eulerFlux0 (ring0 i) (ring0 j) 0) _
      (fun i => (onRing_updateStep0_eq ring0 i).1)
  · exact ring_telescope _ _ (fun i j => eulerFlux0 (ring0 i) (ring0 j) 1) _
      (fun i => (onRing_updateStep0_eq ring0 i).2.1)
  · exact ring_telescope _ _ (fun i j => eulerFlux0 (ring0 i) (ring0 j) 2) _
      (fun i => (onRing_updateStep0_eq ring0 i).2.2)
  · exact ring_telescope _ _ (fun i j => eulerFlux1 (ring1 i) (ring1 j) 0) _
      (fun i => (onRing_updateStep1_eq ring1 i).1)
  · exact ring_telescope _ _ (fun i j => eulerFlux1 (ring1 i) (ring1 j) 1) _
      (fun i => (onRing_updateStep1_eq ring1 i).2.1)
  · exact ring_telescope _ _ (fun i j => eulerFlux1 (ring1 i) (ring1 j) 2) _
      (fun i => (onRing_updateStep1_eq ring1 i).2.2)

/-- Witness of C1 on the block of cells `0..2` of the sample rows and on the
sample rings of three cells, over the rationals. -/
theorem conservation_telescoping_witness :
    (0 : ℤ) ≤ 2
    ∧ ∑ i in Finset.Icc (0 : ℤ) 2, (onRow updateStep0 sampleRow4 i).f3
        = ∑ i in Finset.Icc (0 : ℤ) 2, (sampleRow4 i).f0 - 0.5 * DT / DX
          * (eulerFlux0 (sampleRow4 2) (sampleRow4 (2 + 1)) 0
              - eulerFlux0 (sampleRow4 (0 - 1)) (sampleRow4 0) 0)
    ∧ ∑ i, (onRing updateStep0 sampleRing4 i).f3 = ∑ i, (sampleRing4 i).f0
    ∧ ∑ i, (onRing updateStep1 sampleRing7 i).f2 = ∑ i, (sampleRing7 i).f2 :=
  ⟨by norm_num,
    (conservation_telescoping sampleRow4 sampleRow7 0 2 (by norm_num) 2
      sampleRing4 sampleRing7).1.1,
    (conservation_telescoping sampleRow4 sampleRow7 0 2 (by norm_num) 2
      sampleRing4 sampleRing7).2.2.1.1,
    (conservation_telescoping sampleRow4 sampleRow7 0 2 (by norm_num) 2
      sampleRing4 sampleRing7).2.2.2.2.2⟩

/-- On the row written by `pRatioStep0`, `eulerFlux0` between cells `j` and
`j + 1` is the spatial operator of the row of triples. -/
theorem eulerFlux0_onRow (U : ℤ → SP3 α) (j : ℤ) :
    eulerFlux0 (onRow pRatioStep0 U j) (onRow pRatioStep0 U (j + 1))
      = rowFlux (fun j => (U j).w) j := by
  rw [eulerFlux0_eq_limitedFaceFlux]
  rfl

/-- On the row written by `pRatioStep1`, `eulerFlux1` between cells `j` and
`j + 1` is the spatial operator of the row of half-step triples. -/
theorem eulerFlux1_onRow (V : ℤ → SP6 α) (j : ℤ) :
    eulerFlux1 (onRow pRatioStep1 V j) (onRow pRatioStep1 V (j + 1))
      = rowFlux (fun j => (V j).h) j := by
  rw [eulerFlux1_eq_limitedFaceFlux]
  rfl

/-- After the first two stages, fields 3, 4, 5 of every cell hold the half-step
state and fields 0, 1, 2 still hold the state at the start of the step. -/
theorem onRow_updateStep0_half (U : ℤ → SP3 α) (j : ℤ) :
    (onRow updateStep0 (onRow pRatioStep0 U) j).h = halfStep (fun j => (U j).w) j
    ∧ (onRow updateStep0 (onRow pRatioStep0 U) j).f0 = (U j).f0
    ∧ (onRow updateStep0 (onRow pRatioStep0 U) j).f1 = (U j).f1
    ∧ (onRow updateStep0 (onRow pRatioStep0 U) j).f2 = (U j).f2 := by
  have hR := eulerFlux0_onRow U j
  have hL := eulerFlux0_onRow U (j - 1)
  rw [sub_add_cancel] at hL
  obtain ⟨h3, h4, h5⟩ := onRow_updateStep0_eq (onRow pRatioStep0 U) j
  refine ⟨?_, rfl, rfl, rfl⟩
  refine Vec3.ext3 ?_ ?_ ?_
  · show (onRow updateStep0 (onRow pRatioStep0 U) j).f3 = _
    rw [h3, hR, hL]
    simp only [halfStep, SP3.w, Vec3.get0, onRow, pRatioStep0]
    ring
  · show (onRow updateStep0 (onRow pRatioStep0 U) j).f4 = _
    rw [h4, hR, hL]
    simp only [halfStep, SP3.w, Vec3.get1, onRow, pRatioStep0]
    ring
  · show (onRow updateStep0 (onRow pRatioStep0 U) j).f5 = _
    rw [h5, hR, hL]
    simp only [halfStep, SP3.w, Vec3.get2, onRow, pRatioStep0]
    ring

/-- Claim C6 (a full timestep is a midpoint scheme): chaining `pRatioStep0`,
`updateStep0`, `pRatioStep1`, `updateStep1` on a row `U` gives in every cell `i`
the triple `U_i - (DT/DX)*(F(H_i, H_{i+1}) - F(H_{i-1}, H_i))`, where
`H_j = U_j - 0.5*(DT/DX)*(F(U_j, U_{j+1}) - F(U_{j-1}, U_j))` is the half-step
state held in fields 3, 4, 5 after the second stage and `F` is the one limited
face flux, with the pressure ratios of the row it is applied to. -/
theorem fullStep_eq_midpointStep (U : ℤ → SP3 α) (i : ℤ) :
    (fullStep U i).w = midpointStep (fun j => (U j).w) i
    ∧ (onRow updateStep0 (onRow pRatioStep0 U) i).h = halfStep (fun j => (U j).w) i := by
  refine ⟨?_, (onRow_updateStep0_half U i).1⟩
  have hH : (fun j => (onRow updateStep0 (onRow pRatioStep0 U) j).h)
      = halfStep (fun j => (U j).w) := by
    funext j
    exact (onRow_updateStep0_half U j).1
  have hR := eulerFlux1_onRow (onRow updateStep0 (onRow pRatioStep0 U)) i
  have hL := eulerFlux1_onRow (onRow updateStep0 (onRow pRatioStep0 U)) (i - 1)
  rw [sub_add_cancel] at hL
  rw [hH] at hR hL
  obtain ⟨h0, h1, h2⟩ :=
    onRow_updateStep1_eq (onRow pRatioStep1 (onRow updateStep0 (onRow pRatioStep0 U))) i
  refine Vec3.ext3 ?_ ?_ ?_
  · show (fullStep U i).f0 = _
    rw [fullStep, h0, hR, hL]
    rfl
  · show (fullStep U i).f1 = _
    rw [fullStep, h1, hR, hL]
    rfl
  · show (fullStep U i).f2 = _
    rw [fullStep, h2, hR, hL]
    rfl

end Theorems

section Cells

variable {α : Type} [LinearOrderedField α]

/-- Claim C11 (initialization): at a position `x > 0`, `init` writes
`(1.0, 0.0, 1/(1.4 - 1))`; at every other position, `x = 0` included, it writes
`(0.125, 0.0, 0.1/(1.4 - 1))`; the momentum is zero in both states. -/
theorem init_sod (x : α) :
    (0 < x → (init x).f0 = 1.0 ∧ (init x).f1 = 0.0 ∧ (init x).f2 = 1.0 / (1.4 - 1))
    ∧ (x ≤ 0 → (init x).f0 = 0.125 ∧ (init x).f1 = 0.0 ∧ (init x).f2 = 0.1 / (1.4 - 1))
    ∧ ((init (0 : α)).f0 = 0.125 ∧ (init (0 : α)).f1 = 0.0
        ∧ (init (0 : α)).f2 = 0.1 / (1.4 - 1))
    ∧ (init x).f1 = 0 := by
  have hpos : ∀ y : α, 0 < y →
      init y = { f0 := 1.0, f1 := 0.0, f2 := 1.0 / (1.4 - 1) } := by
    intro y hy
    simp only [init]
    rw [if_pos hy]
  have hneg : ∀ y : α, y ≤ 0 →
      init y = { f0 := 0.125, f1 := 0.0, f2 := 0.1 / (1.4 - 1) } := by
    intro y hy
    simp only [init]
    rw [if_neg (not_lt.mpr hy)]
  refine ⟨?_, ?_, ?_, ?_⟩
  · intro hx
    rw [hpos x hx]
    exact ⟨rfl, rfl, rfl⟩
  · intro hx
    rw [hneg x hx]
    exact ⟨rfl, rfl, rfl⟩
  · rw [hneg 0 le_rfl]
    exact ⟨rfl, rfl, rfl⟩
  · rcases lt_or_le 0 x with hx | hx
    · rw [hpos x hx]
      norm_num
    · rw [hneg x hx]
      norm_num

/-- Witness of C11 at the positions `1/4` and `-1/4` over the rationals. -/
theorem init_sod_witness :
    (0 : ℚ) < 1 / 4 ∧ (-1 / 4 : ℚ) ≤ 0
    ∧ (init (1 / 4 : ℚ)).f0 = 1 ∧ (init (1 / 4 : ℚ)).f2 = 5 / 2
    ∧ (init (-1 / 4 : ℚ)).f0 = 1 / 8 ∧ (init (-1 / 4 : ℚ)).f2 = 1 / 4 := by
  have hp := (init_sod (1 / 4 : ℚ)).1 (by norm_num)
  have hn := (init_sod (-1 / 4 : ℚ)).2.1 (by norm_num)
  refine ⟨by norm_num, by norm_num, ?_, ?_, ?_, ?_⟩
  · rw [hp.1]; norm_num
  · rw [hp.2.2]; norm_num
  · rw [hn.1]; norm_num
  · rw [hn.2.2]; norm_num

/-- Claim C14 (pressure and the valid-state invariant): for `rho > 0`,
`pressure(rho, rhoU, rhoE) = (1.4 - 1)*(rhoE - 0.5*rhoU^2/rho)`, and it is `≥ 0`
exactly when `rhoE ≥ 0.5*rhoU^2/rho`. -/
theorem pressure_nonneg_iff (rho rhoU rhoE : α) (hrho : 0 < rho) :
    pressure rho rhoU rhoE = (1.4 - 1) * (rhoE - 0.5 * rhoU ^ 2 / rho)
    ∧ (0 ≤ pressure rho rhoU rhoE ↔ 0.5 * rhoU ^ 2 / rho ≤ rhoE) := by
  have hne : rho ≠ 0 := ne_of_gt hrho
  have hform : pressure rho rhoU rhoE = (1.4 - 1) * (rhoE - 0.5 * rhoU ^ 2 / rho) := by
    simp only [pressure]
    ring
  have hg : (0 : α) < 1.4 - 1 := by norm_num
  refine ⟨hform, ?_⟩
  rw [hform]
  constructor
  · intro h
    have := nonneg_of_mul_nonneg_right h hg
    linarith
  · intro h
    exact mul_nonneg hg.le (by linarith)

/-- Witness of C14 at `(rho, rhoU, rhoE) = (4, 2, 10)` over the rationals, where
the kinetic-energy density is `1/2` and the pressure `19/5`. -/
theorem pressure_nonneg_iff_witness :
    (0 : ℚ) < 4 ∧ pressure (4 : ℚ) 2 10 = 19 / 5 ∧ 0 ≤ pressure (4 : ℚ) 2 10 := by
  have h := pressure_nonneg_iff (4 : ℚ) 2 10 (by norm_num)
  refine ⟨by norm_num, ?_, h.2.mpr (by norm_num)⟩
  rw [h.1]
  norm_num

/-- A reconstruction with the ratio of a division by zero, or with its
reciprocal, returns the cell's own value. -/
theorem limitedReconstruction_div_zero (n w wNbr : α) :
    limitedReconstruction w wNbr (Dbl.div n 0) = w
    ∧ limitedReconstruction w wNbr (Dbl.recip (Dbl.div n 0)) = w := by
  by_cases hn : n = 0
  · simp [Dbl.div, hn, Dbl.recip, limitedReconstruction]
  · simp [Dbl.div, hn, Dbl.recip, limitedReconstruction]

/-- The ratio written by `pRatioStep0` for a cell whose pressure equals its left
neighbour's is the result of a division by zero. -/
theorem pRatioStep0_ratio_of_eq (Lp sp Rp : SP3 α)
    (h : pressure sp.f0 sp.f1 sp.f2 = pressure Lp.f0 Lp.f1 Lp.f2) :
    (pRatioStep0 Lp sp Rp).f3
      = Dbl.div (pressure Rp.f0 Rp.f1 Rp.f2 - pressure sp.f0 sp.f1 sp.f2) 0 := by
  show Dbl.div _ _ = _
  rw [h, sub_self]

/-- The ratio written by `pRatioStep1` for a cell whose half-step pressure equals
its left neighbour's is the result of a division by zero. -/
theorem pRatioStep1_ratio_of_eq (Lq sq Rq : SP6 α)
    (h : pressure sq.f3 sq.f4 sq.f5 = pressure Lq.f3 Lq.f4 Lq.f5) :
    (pRatioStep1 Lq sq Rq).f6
      = Dbl.div (pressure Rq.f3 Rq.f4 Rq.f5 - pressure sq.f3 sq.f4 sq.f5) 0 := by
  show Dbl.div _ _ = _
  rw [h, sub_self]

/-- A reconstruction between two equal values returns that value, whatever the
ratio. -/
theorem limitedReconstruction_self (w : α) (r : Dbl α) :
    limitedReconstruction w w r = w := by
  cases r with
  | fin x =>
    by_cases hx : 0 < x
    · simp only [limitedReconstruction, if_pos hx, sub_self, mul_zero, zero_mul, add_zero]
    · simp only [limitedReconstruction, if_neg hx]
  | inf => rfl
  | nan => rfl

/-- The pressure does not depend on the sign of the momentum. -/
theorem pressure_neg (rho rhoU rhoE : α) :
    pressure rho (-rhoU) rhoE = pressure rho rhoU rhoE := by
  simp only [pressure]
  ring

/-- The state that `sodRow` holds in the cells `0, 1, 2, ...`. -/
theorem sodRow_right (j : ℤ) (hj : 0 ≤ j) :
    (sodRow : ℤ → SP3 α) j = { f0 := 1.0, f1 := 0.0, f2 := 1.0 / (1.4 - 1) } := by
  have hx : (0 : α) < ((j : α) + 1 / 2) * DX := by
    have : (0 : α) ≤ (j : α) := by exact_mod_cast hj
    have hDX : (0 : α) < DX := by
      show (0 : α) < 0.5
      norm_num
    exact mul_pos (by linarith) hDX
  simp only [sodRow, init]
  rw [if_pos hx]

/-- The state that `sodRow` holds in the cells `-1, -2, -3, ...`. -/
theorem sodRow_left (j : ℤ) (hj : j ≤ -1) :
    (sodRow : ℤ → SP3 α) j = { f0 := 0.125, f1 := 0.0, f2 := 0.1 / (1.4 - 1) } := by
  have hx : ¬ (0 : α) < ((j : α) + 1 / 2) * DX := by
    have : (j : α) ≤ -1 := by exact_mod_cast hj
    have hDX : (0 : α) < DX := by
      show (0 : α) < 0.5
      norm_num
    have : ((j : α) + 1 / 2) * DX ≤ 0 :=
      mul_nonpos_of_nonpos_of_nonneg (by linarith) hDX.le
    exact not_lt.mpr this
  simp only [sodRow, init]
  rw [if_neg hx]

/-- The reconstruction moves from `w` towards `wNbr` by the weight of the
ratio, which lies in `[0, 1/2]`. -/
theorem limitedReconstruction_eq_weight (w wNbr : α) (r : Dbl α) :
    limitedReconstruction w wNbr r = w + limiterWeight r * (wNbr - w)
    ∧ 0 ≤ limiterWeight r ∧ limiterWeight r ≤ 1 / 2 := by
  cases r with
  | fin x =>
    by_cases hx : 0 < x
    · obtain ⟨hm0, hm1⟩ := limiter_pos_le_one x hx
      simp only [limitedReconstruction, limiterWeight, if_pos hx]
      refine ⟨by ring, ?_, ?_⟩
      · have : (0 : α) < 0.5 := by norm_num
        exact mul_nonneg this.le hm0.le
      · have h5 : (0.5 : α) = 1 / 2 := by norm_num
        rw [h5]
        linarith
    · simp only [limitedReconstruction, limiterWeight, if_neg hx]
      refine ⟨by ring, le_rfl, by norm_num⟩
  | inf =>
    simp only [limitedReconstruction, limiterWeight]
    refine ⟨by ring, le_rfl, by norm_num⟩
  | nan =>
    simp only [limitedReconstruction, limiterWeight]
    refine ⟨by ring, le_rfl, by norm_num⟩

/-- For a positive density the pressure is non-negative exactly when
`rhoU^2 ≤ 2*rho*rhoE`. -/
theorem pressure_nonneg_iff_sq (rho rhoU rhoE : α) (hrho : 0 < rho) :
    0 ≤ pressure rho rhoU rhoE ↔ rhoU * rhoU ≤ 2 * rho * rhoE := by
  have hg : (0 : α) < 1.4 - 1 := by norm_num
  have hform : pressure rho rhoU rhoE
      = (1.4 - 1) * ((2 * rho * rhoE - rhoU * rhoU) / (2 * rho)) := by
    simp only [pressure]
    field_simp
    ring
  have h2 : (0 : α) < 2 * rho := by linarith
  rw [hform]
  constructor
  · intro h
    have h1 := nonneg_of_mul_nonneg_right h hg
    have := (div_nonneg_iff.mp h1)
    rcases this with ⟨hn, _⟩ | ⟨_, hd⟩
    · linarith
    · linarith
  · intro h
    exact mul_nonneg hg.le (div_nonneg (by linarith) h2.le)

/-- The admissible states form a convex set: a mix of two admissible triples
with weights `1 - t` and `t`, `0 ≤ t ≤ 1`, is admissible. -/
theorem admissible_mix (a b : Vec3 α) (t : α) (ht0 : 0 ≤ t) (ht1 : t ≤ 1)
    (ha : Admissible a) (hb : Admissible b) :
    Admissible (fun i => a i + t * (b i - a i)) := by
  obtain ⟨hra, hpa⟩ := ha
  obtain ⟨hrb, hpb⟩ := hb
  have hs : 0 ≤ 1 - t := by linarith
  have hrho : 0 < a 0 + t * (b 0 - a 0) := by
    have : a 0 + t * (b 0 - a 0) = (1 - t) * a 0 + t * b 0 := by ring
    rw [this]
    rcases eq_or_lt_of_le ht0 with h | h
    · rw [← h]
      simpa using hra
    · have := mul_pos h hrb
      have := mul_nonneg hs hra.le
      linarith
  refine ⟨hrho, ?_⟩
  have ha2 := (pressure_nonneg_iff_sq _ _ _ hra).mp hpa
  have hb2 := (pressure_nonneg_iff_sq _ _ _ hrb).mp hpb
  rw [pressure_nonneg_iff_sq _ _ _ hrho]
  show (a 1 + t * (b 1 - a 1)) * (a 1 + t * (b 1 - a 1))
    ≤ 2 * (a 0 + t * (b 0 - a 0)) * (a 2 + t * (b 2 - a 2))
  have hcross : a 1 * b 1 ≤ a 0 * b 2 + b 0 * a 2 := by
    have hsq : 0 ≤ (a 1 * b 0 - b 1 * a 0) * (a 1 * b 0 - b 1 * a 0) := mul_self_nonneg _
    have h1 : a 1 * a 1 * (b 0 * b 0) ≤ 2 * a 0 * a 2 * (b 0 * b 0) :=
      mul_le_mul_of_nonneg_right ha2 (mul_self_nonneg _)
    have h2 : b 1 * b 1 * (a 0 * a 0) ≤ 2 * b 0 * b 2 * (a 0 * a 0) :=
      mul_le_mul_of_nonneg_right hb2 (mul_self_nonneg _)
    have hab : 0 < a 0 * b 0 := mul_pos hra hrb
    have h3 : (a 1 * b 1) * (a 0 * b 0) ≤ (a 0 * b 2 + b 0 * a 2) * (a 0 * b 0) := by
      nlinarith
    exact le_of_mul_le_mul_right h3 hab
  have e : 2 * (a 0 + t * (b 0 - a 0)) * (a 2 + t * (b 2 - a 2))
      - (a 1 + t * (b 1 - a 1)) * (a 1 + t * (b 1 - a 1))
      = (1 - t) * (1 - t) * (2 * a 0 * a 2 - a 1 * a 1)
        + t * t * (2 * b 0 * b 2 - b 1 * b 1)
        + 2 * ((1 - t) * t) * (a 0 * b 2 + b 0 * a 2 - a 1 * b 1) := by ring
  have t1 : 0 ≤ (1 - t) * (1 - t) * (2 * a 0 * a 2 - a 1 * a 1) :=
    mul_nonneg (mul_self_nonneg _) (by linarith)
  have t2 : 0 ≤ t * t * (2 * b 0 * b 2 - b 1 * b 1) :=
    mul_nonneg (mul_self_nonneg _) (by linarith)
  have t3 : 0 ≤ 2 * ((1 - t) * t) * (a 0 * b 2 + b 0 * a 2 - a 1 * b 1) :=
    mul_nonneg (mul_nonneg (by norm_num) (mul_nonneg hs ht0)) (by linarith)
  linarith

/-- The triple reconstructed componentwise with one shared ratio is admissible
when both cells are. -/
theorem admissible_reconstruction (a b : Vec3 α) (r : Dbl α)
    (ha : Admissible a) (hb : Admissible b) :
    Admissible (fun i => limitedReconstruction (a i) (b i) r) := by
  obtain ⟨_, h0, h1⟩ := limitedReconstruction_eq_weight (a 0) (b 0) r
  have e : (fun i => limitedReconstruction (a i) (b i) r)
      = fun i => a i + limiterWeight r * (b i - a i) :=
    funext fun i => (limitedReconstruction_eq_weight (a i) (b i) r).1
  rw [e]
  exact admissible_mix a b _ h0 (by linarith) ha hb

/-- The rational square root of a positive rational is positive. -/
theorem rat_sqrt_pos (q : ℚ) (hq : 0 < q) : 0 < Rat.sqrt q := by
  have hnum : 0 < q.num := Rat.num_pos.mpr hq
  have h1 : 0 < Int.sqrt q.num := by
    have : (0 : ℕ) < Nat.sqrt q.num.toNat := Nat.sqrt_pos.mpr (by omega)
    simp only [Int.sqrt]
    exact_mod_cast this
  have h2 : 0 < Nat.sqrt q.den := Nat.sqrt_pos.mpr q.den_pos
  rw [Rat.sqrt, Rat.mkRat_eq_div]
  exact div_pos (by exact_mod_cast h1) (by exact_mod_cast h2)

/-- For an admissible triple the velocity `u = rhoU/rho` and the specific energy
`E = rhoE/rho` satisfy `u^2 ≤ 2*E`. -/
theorem admissible_velocity_sq (w : Vec3 α) (hw : Admissible w) :
    (w 1 / w 0) * (w 1 / w 0) ≤ 2 * (w 2 / w 0) := by
  obtain ⟨hr, hp⟩ := hw
  have h := (pressure_nonneg_iff_sq _ _ _ hr).mp hp
  have hr2 : 0 < w 0 * w 0 := mul_pos hr hr
  have e1 : (w 1 / w 0) * (w 1 / w 0) = (w 1 * w 1) / (w 0 * w 0) := by
    field_simp
  have e2 : 2 * (w 2 / w 0) = (2 * w 0 * w 2) / (w 0 * w 0) := by
    field_simp
    ring
  rw [e1, e2]
  exact div_le_div_of_nonneg_right h hr2.le

/-- A weighted average with positive weights lies between the two values and
its square is at most the weighted average of any bounds of the two squares. -/
theorem weighted_average_bounds (s t x y X Y : α) (hs : 0 < s) (ht : 0 < t)
    (hx : x * x ≤ 2 * X) (hy : y * y ≤ 2 * Y) :
    min x y ≤ (s * x + t * y) / (s + t)
    ∧ (s * x + t * y) / (s + t) ≤ max x y
    ∧ ((s * x + t * y) / (s + t)) * ((s * x + t * y) / (s + t))
        ≤ 2 * ((s * X + t * Y) / (s + t)) := by
  have hst : 0 < s + t := add_pos hs ht
  refine ⟨?_, ?_, ?_⟩
  · rw [le_div_iff₀ hst]
    have h1 : s * min x y ≤ s * x := mul_le_mul_of_nonneg_left (min_le_left x y) hs.le
    have h2 : t * min x y ≤ t * y := mul_le_mul_of_nonneg_left (min_le_right x y) ht.le
    linarith
  · rw [div_le_iff₀ hst]
    have h1 : s * x ≤ s * max x y := mul_le_mul_of_nonneg_left (le_max_left x y) hs.le
    have h2 : t * y ≤ t * max x y := mul_le_mul_of_nonneg_left (le_max_right x y) ht.le
    linarith
  · have e1 : ((s * x + t * y) / (s + t)) * ((s * x + t * y) / (s + t))
        = ((s * x + t * y) * (s * x + t * y)) / ((s + t) * (s + t)) := by
      field_simp
    have e2 : 2 * ((s * X + t * Y) / (s + t))
        = (2 * (s * X + t * Y) * (s + t)) / ((s + t) * (s + t)) := by
      field_simp
      ring
    rw [e1, e2]
    apply div_le_div_of_nonneg_right _ (mul_pos hst hst).le
    have hsq : 0 ≤ (x - y) * (x - y) := mul_self_nonneg _
    have h1 : s * (s + t) * (x * x) ≤ s * (s + t) * (2 * X) :=
      mul_le_mul_of_nonneg_left hx (mul_pos hs hst).le
    have h2 : t * (s + t) * (y * y) ≤ t * (s + t) * (2 * Y) :=
      mul_le_mul_of_nonneg_left hy (mul_pos ht hst).le
    have h3 : 0 ≤ s * t * ((x - y) * (x - y)) := mul_nonneg (mul_pos hs ht).le hsq
    nlinarith

end Cells

section Faces

variable {α : Type} [LinearOrderedField α] [HasSqrt α]

/-- Claim C13 (a zero-denominator ratio is handled downstream): when the
pressure of a cell equals the pressure of its left neighbour, the ratio that the
ratio stage writes is not finite, and every reconstruction that consumes it
returns the cell's own value: with the ratio itself (the cell is the left cell
of a face, so the left face state of `eulerFlux0`/`eulerFlux1` is the cell's own
triple) and with its reciprocal (the cell is the right cell of a face, so the
right face state is the cell's own triple). -/
theorem zero_denominator_ratio_handled (Lp sp Rp : SP3 α) (N : SP4 α)
    (Lq sq Rq : SP6 α) (M : SP7 α) :
    (pressure sp.f0 sp.f1 sp.f2 = pressure Lp.f0 Lp.f1 Lp.f2 →
      (pRatioStep0 Lp sp Rp).f3.isfinite = false
      ∧ (∀ w wNbr : α,
          limitedReconstruction w wNbr (pRatioStep0 Lp sp Rp).f3 = w
          ∧ limitedReconstruction w wNbr (Dbl.recip (pRatioStep0 Lp sp Rp).f3) = w)
      ∧ eulerFlux0 (pRatioStep0 Lp sp Rp) N
          = eulerFlux sp.w
              (fun i => limitedReconstruction (N.w i) (sp.w i) (Dbl.recip N.f3))
      ∧ eulerFlux0 N (pRatioStep0 Lp sp Rp)
          = eulerFlux (fun i => limitedReconstruction (N.w i) (sp.w i) N.f3) sp.w)
    ∧ (pressure sq.f3 sq.f4 sq.f5 = pressure Lq.f3 Lq.f4 Lq.f5 →
      (pRatioStep1 Lq sq Rq).f6.isfinite = false
      ∧ (∀ w wNbr : α,
          limitedReconstruction w wNbr (pRatioStep1 Lq sq Rq).f6 = w
          ∧ limitedReconstruction w wNbr (Dbl.recip (pRatioStep1 Lq sq Rq).f6) = w)
      ∧ eulerFlux1 (pRatioStep1 Lq sq Rq) M
          = eulerFlux sq.h
              (fun i => limitedReconstruction (M.h i) (sq.h i) (Dbl.recip M.f6))
      ∧ eulerFlux1 M (pRatioStep1 Lq sq Rq)
          = eulerFlux (fun i => limitedReconstruction (M.h i) (sq.h i) M.f6) sq.h) := by
  constructor
  · intro h
    have hr := pRatioStep0_ratio_of_eq Lp sp Rp h
    have hrec : ∀ w wNbr : α,
        limitedReconstruction w wNbr (pRatioStep0 Lp sp Rp).f3 = w
        ∧ limitedReconstruction w wNbr (Dbl.recip (pRatioStep0 Lp sp Rp).f3) = w := by
      intro w wNbr
      rw [hr]
      exact limitedReconstruction_div_zero _ w wNbr
    refine ⟨?_, hrec, ?_, ?_⟩
    · rw [hr]
      exact Dbl.div_zero_not_finite _
    · rw [eulerFlux0_eq_limitedFaceFlux, limitedFaceFlux]
      have e : (fun i => limitedReconstruction ((pRatioStep0 Lp sp Rp).w i) (N.w i)
          (pRatioStep0 Lp sp Rp).f3) = sp.w := funext fun i => (hrec _ _).1
      rw [e]
      rfl
    · rw [eulerFlux0_eq_limitedFaceFlux, limitedFaceFlux]
      have e : (fun i => limitedReconstruction ((pRatioStep0 Lp sp Rp).w i) (N.w i)
          (Dbl.recip (pRatioStep0 Lp sp Rp).f3)) = sp.w := funext fun i => (hrec _ _).2
      rw [e]
      rfl
  · intro h
    have hr := pRatioStep1_ratio_of_eq Lq sq Rq h
    have hrec : ∀ w wNbr : α,
        limitedReconstruction w wNbr (pRatioStep1 Lq sq Rq).f6 = w
        ∧ limitedReconstruction w wNbr (Dbl.recip (pRatioStep1 Lq sq Rq).f6) = w := by
      intro w wNbr
      rw [hr]
      exact limitedReconstruction_div_zero _ w wNbr
    refine ⟨?_, hrec, ?_, ?_⟩
    · rw [hr]
      exact Dbl.div_zero_not_finite _
    · rw [eulerFlux1_eq_limitedFaceFlux, limitedFaceFlux]
      have e : (fun i => limitedReconstruction ((pRatioStep1 Lq sq Rq).h i) (M.h i)
          (pRatioStep1 Lq sq Rq).f6) = sq.h := funext fun i => (hrec _ _).1
      rw [e]
      rfl
    · rw [eulerFlux1_eq_limitedFaceFlux, limitedFaceFlux]
      have e : (fun i => limitedReconstruction ((pRatioStep1 Lq sq Rq).h i) (M.h i)
          (Dbl.recip (pRatioStep1 Lq sq Rq).f6)) = sq.h := funext fun i => (hrec _ _).2
      rw [e]
      rfl

/-- Witness of C13 over the rationals: a cell `(1, 0, 5/2)` with an equal left
neighbour and the right neighbour `(1/8, 0, 1/4)`; the ratio is `(1/10 - 1)/0`. -/
theorem zero_denominator_ratio_handled_witness :
    pressure (1 : ℚ) 0 (5 / 2) = pressure (1 : ℚ) 0 (5 / 2)
    ∧ (pRatioStep0 (SP3.mk (1 : ℚ) 0 (5 / 2)) (SP3.mk 1 0 (5 / 2))
        (SP3.mk (1 / 8) 0 (1 / 4))).f3.isfinite = false
    ∧ limitedReconstruction (1 : ℚ) 3
        (pRatioStep0 (SP3.mk (1 : ℚ) 0 (5 / 2)) (SP3.mk 1 0 (5 / 2))
          (SP3.mk (1 / 8) 0 (1 / 4))).f3 = 1
    ∧ limitedReconstruction (1 : ℚ) 3
        (Dbl.recip (pRatioStep0 (SP3.mk (1 : ℚ) 0 (5 / 2)) (SP3.mk 1 0 (5 / 2))
          (SP3.mk (1 / 8) 0 (1 / 4))).f3) = 1 := by
  have h := (zero_denominator_ratio_handled (SP3.mk (1 : ℚ) 0 (5 / 2)) (SP3.mk 1 0 (5 / 2))
    (SP3.mk (1 / 8) 0 (1 / 4)) (SP4.mk 0 0 0 Dbl.nan) (SP6.mk 0 0 0 0 0 0)
    (SP6.mk 0 0 0 0 0 0) (SP6.mk 0 0 0 0 0 0) (SP7.mk 0 0 0 0 0 0 Dbl.nan)).1 rfl
  exact ⟨rfl, h.1, (h.2.1 1 3).1, (h.2.1 1 3).2⟩

/-- Between two cells that carry the same triple, `eulerFlux0` is `eulerFlux` of
that triple with itself, whatever the two ratios. -/
theorem eulerFlux0_of_same (L R : SP4 α) (h : L.w = R.w) :
    eulerFlux0 L R = eulerFlux L.w L.w := by
  rw [eulerFlux0_eq_limitedFaceFlux, limitedFaceFlux, ← h]
  have e1 : (fun i => limitedReconstruction (L.w i) (L.w i) L.f3) = L.w :=
    funext fun i => limitedReconstruction_self _ _
  have e2 : (fun i => limitedReconstruction (L.w i) (L.w i) (Dbl.recip R.f3)) = L.w :=
    funext fun i => limitedReconstruction_self _ _
  rw [e1, e2]

/-- Between two cells that carry the same half-step triple, `eulerFlux1` is
`eulerFlux` of that triple with itself, whatever the two ratios. -/
theorem eulerFlux1_of_same (L R : SP7 α) (h : L.h = R.h) :
    eulerFlux1 L R = eulerFlux L.h L.h := by
  rw [eulerFlux1_eq_limitedFaceFlux, limitedFaceFlux, ← h]
  have e1 : (fun i => limitedReconstruction (L.h i) (L.h i) L.f6) = L.h :=
    funext fun i => limitedReconstruction_self _ _
  have e2 : (fun i => limitedReconstruction (L.h i) (L.h i) (Dbl.recip R.f6)) = L.h :=
    funext fun i => limitedReconstruction_self _ _
  rw [e1, e2]

/-- When a cell and its two neighbours carry the same triple, `updateStep0`
writes the triple of fields 0, 1, 2 into fields 3, 4, 5. -/
theorem updateStep0_of_same (Lp sp Rp : SP4 α) (hL : Lp.w = sp.w) (hR : Rp.w = sp.w) :
    eulerFlux0 Lp sp = eulerFlux0 sp Rp
    ∧ (updateStep0 Lp sp Rp).f3 = sp.f0
    ∧ (updateStep0 Lp sp Rp).f4 = sp.f1
    ∧ (updateStep0 Lp sp Rp).f5 = sp.f2 := by
  have hF : eulerFlux0 Lp sp = eulerFlux0 sp Rp := by
    rw [eulerFlux0_of_same Lp sp hL, eulerFlux0_of_same sp Rp hR.symm, hL]
  refine ⟨hF, ?_, ?_, ?_⟩ <;>
    simp only [updateStep0, hF, sub_self, mul_zero, zero_div, sub_zero]

/-- When a cell and its two neighbours carry the same half-step triple,
`updateStep1` writes fields 0, 1, 2 back unchanged. -/
theorem updateStep1_of_same (Lq sq Rq : SP7 α) (hL : Lq.h = sq.h) (hR : Rq.h = sq.h) :
    eulerFlux1 Lq sq = eulerFlux1 sq Rq
    ∧ (updateStep1 Lq sq Rq).f0 = sq.f0
    ∧ (updateStep1 Lq sq Rq).f1 = sq.f1
    ∧ (updateStep1 Lq sq Rq).f2 = sq.f2 := by
  have hF : eulerFlux1 Lq sq = eulerFlux1 sq Rq := by
    rw [eulerFlux1_of_same Lq sq hL, eulerFlux1_of_same sq Rq hR.symm, hL]
  refine ⟨hF, ?_, ?_, ?_⟩ <;>
    simp only [updateStep1, hF, sub_self, mul_zero, zero_div, sub_zero]

/-- A uniform state in exact arithmetic: when a cell and both its neighbours
carry the same conserved triple `w` (fields 0, 1, 2 for `updateStep0`, fields
3, 4, 5 for `updateStep1`), then for any ratio fields the two face fluxes have
the same field value and the stage writes the cell's old triple. -/
theorem uniform_state_steady_exact (w : Vec3 α)
    (Lp sp Rp : SP4 α) (hL : Lp.w = w) (hs : sp.w = w) (hR : Rp.w = w)
    (Lq sq Rq : SP7 α) (hL1 : Lq.h = w) (hs1 : sq.h = w) (hR1 : Rq.h = w) :
    (eulerFlux0 Lp sp = eulerFlux0 sp Rp
      ∧ (updateStep0 Lp sp Rp).f3 = sp.f0
      ∧ (updateStep0 Lp sp Rp).f4 = sp.f1
      ∧ (updateStep0 Lp sp Rp).f5 = sp.f2)
    ∧ (eulerFlux1 Lq sq = eulerFlux1 sq Rq
      ∧ (updateStep1 Lq sq Rq).f0 = sq.f0
      ∧ (updateStep1 Lq sq Rq).f1 = sq.f1
      ∧ (updateStep1 Lq sq Rq).f2 = sq.f2) := by
  exact ⟨updateStep0_of_same Lp sp Rp (hL.trans hs.symm) (hR.trans hs.symm),
    updateStep1_of_same Lq sq Rq (hL1.trans hs1.symm) (hR1.trans hs1.symm)⟩

/-- The spectral radius of the mirrored face is the spectral radius of the
face. -/
theorem spectralRadius_mirror (a b : Vec3 α) :
    spectralRadius (mirror b) (mirror a) = spectralRadius a b := by
  simp only [spectralRadius, mirror, Vec3.get0, Vec3.get1, Vec3.get2]
  have hrho : HasSqrt.sqrt (b 0) * HasSqrt.sqrt (a 0)
      = HasSqrt.sqrt (a 0) * HasSqrt.sqrt (b 0) := mul_comm _ _
  have hu : (HasSqrt.sqrt (b 0) * (-(b 1) / b 0) + HasSqrt.sqrt (a 0) * (-(a 1) / a 0))
        / (HasSqrt.sqrt (b 0) + HasSqrt.sqrt (a 0))
      = -((HasSqrt.sqrt (a 0) * (a 1 / a 0) + HasSqrt.sqrt (b 0) * (b 1 / b 0))
        / (HasSqrt.sqrt (a 0) + HasSqrt.sqrt (b 0))) := by
    rw [add_comm (HasSqrt.sqrt (b 0)) (HasSqrt.sqrt (a 0))]
    ring
  have hE : (HasSqrt.sqrt (b 0) * (b 2 / b 0) + HasSqrt.sqrt (a 0) * (a 2 / a 0))
        / (HasSqrt.sqrt (b 0) + HasSqrt.sqrt (a 0))
      = (HasSqrt.sqrt (a 0) * (a 2 / a 0) + HasSqrt.sqrt (b 0) * (b 2 / b 0))
        / (HasSqrt.sqrt (a 0) + HasSqrt.sqrt (b 0)) := by
    rw [add_comm (HasSqrt.sqrt (b 0)) (HasSqrt.sqrt (a 0))]
    ring
  rw [hu, hE, hrho, mul_neg, pressure_neg, abs_neg]

/-- Claim C18, amended (mirror symmetry of the flux in exact arithmetic): with
`m(rho, rhoU, rhoE) = (rho, -rhoU, rhoE)` and triples `a`, `b` of positive
density, `eulerFlux(m(b), m(a))` computed without rounding has the negated mass
and energy components of `eulerFlux(a, b)` and the same momentum component, with
the same spectral radius. -/
theorem eulerFlux_mirror (a b : Vec3 α) (ha : 0 < a 0) (hb : 0 < b 0) :
    eulerFlux (mirror b) (mirror a) 0 = -(eulerFlux a b 0)
    ∧ eulerFlux (mirror b) (mirror a) 1 = eulerFlux a b 1
    ∧ eulerFlux (mirror b) (mirror a) 2 = -(eulerFlux a b 2)
    ∧ spectralRadius (mirror b) (mirror a) = spectralRadius a b := by
  have ha0 : a 0 ≠ 0 := ne_of_gt ha
  have hb0 : b 0 ≠ 0 := ne_of_gt hb
  have hs := spectralRadius_mirror a b
  have hm0 : ∀ w : Vec3 α, mirror w 0 = w 0 := fun w => rfl
  have hm1 : ∀ w : Vec3 α, mirror w 1 = -(w 1) := fun w => rfl
  have hm2 : ∀ w : Vec3 α, mirror w 2 = w 2 := fun w => rfl
  refine ⟨?_, ?_, ?_, hs⟩
  · rw [eulerFlux_eq_central_add_dissipation, eulerFlux_eq_central_add_dissipation]
    simp only [dissipation, centralFlux, Vec3.get0, hs, hm0, hm1, hm2, pressure_neg]
    ring
  · rw [eulerFlux_eq_central_add_dissipation, eulerFlux_eq_central_add_dissipation]
    simp only [dissipation, centralFlux, Vec3.get1, hs, hm0, hm1, hm2, pressure_neg]
    ring
  · rw [eulerFlux_eq_central_add_dissipation, eulerFlux_eq_central_add_dissipation]
    simp only [dissipation, centralFlux, Vec3.get2, hs, hm0, hm1, hm2, pressure_neg]
    ring

/-- Witness of the amended C18 at `a = (1, 0, 5/2)`, `b = (4, 1, 1/4)` over the rationals. -/
theorem eulerFlux_mirror_witness :
    (0 : ℚ) < (![1, 0, 5 / 2] : Vec3 ℚ) 0 ∧ (0 : ℚ) < (![4, 1, 1 / 4] : Vec3 ℚ) 0
    ∧ eulerFlux (mirror (![4, 1, 1 / 4] : Vec3 ℚ)) (mirror ![1, 0, 5 / 2]) 0
        = -(eulerFlux (![1, 0, 5 / 2] : Vec3 ℚ) ![4, 1, 1 / 4] 0)
    ∧ eulerFlux (mirror (![4, 1, 1 / 4] : Vec3 ℚ)) (mirror ![1, 0, 5 / 2]) 1
        = eulerFlux (![1, 0, 5 / 2] : Vec3 ℚ) ![4, 1, 1 / 4] 1 := by
  have h := eulerFlux_mirror (![1, 0, 5 / 2] : Vec3 ℚ) ![4, 1, 1 / 4]
    (by norm_num [Vec3.get0]) (by norm_num [Vec3.get0])
  exact ⟨by norm_num [Vec3.get0], by norm_num [Vec3.get0], h.1, h.2.1⟩

end Faces

section Rows

variable {α : Type} [LinearOrderedField α] [HasSqrt α]

/-- A stage applied to a row reads, for cell `i`, the cells `i - 1`, `i`, `i + 1`
only. -/
theorem onRow_congr {A B : Type} (stage : A → A → A → B) (U V : ℤ → A) (i : ℤ)
    (h : ∀ j, i - 1 ≤ j → j ≤ i + 1 → U j = V j) :
    onRow stage U i = onRow stage V i := by
  simp only [onRow]
  rw [h (i - 1) le_rfl (by omega), h i (by omega) (by omega), h (i + 1) (by omega) le_rfl]

/-- The domain of dependence of `fullStep` in the exact embedding, where a stage
receives the three cells it may read as its arguments: the final triple of cell
`i` is the same for two rows that agree on the cells `i - 4 .. i + 4`. -/
theorem fullStep_congr_exact (U V : ℤ → SP3 α) (i : ℤ)
    (h : ∀ j, i - 4 ≤ j → j ≤ i + 4 → U j = V j) :
    fullStep U i = fullStep V i
    ∧ (∀ (P Q : ℤ → SP3 α) (c : ℤ), (∀ j, c - 1 ≤ j → j ≤ c + 1 → P j = Q j) →
        onRow pRatioStep0 P c = onRow pRatioStep0 Q c)
    ∧ (∀ (P Q : ℤ → SP4 α) (c : ℤ), (∀ j, c - 1 ≤ j → j ≤ c + 1 → P j = Q j) →
        onRow updateStep0 P c = onRow updateStep0 Q c)
    ∧ (∀ (P Q : ℤ → SP6 α) (c : ℤ), (∀ j, c - 1 ≤ j → j ≤ c + 1 → P j = Q j) →
        onRow pRatioStep1 P c = onRow pRatioStep1 Q c)
    ∧ (∀ (P Q : ℤ → SP7 α) (c : ℤ), (∀ j, c - 1 ≤ j → j ≤ c + 1 → P j = Q j) →
        onRow updateStep1 P c = onRow updateStep1 Q c) := by
  refine ⟨?_, fun P Q c hc => onRow_congr _ P Q c hc, fun P Q c hc => onRow_congr _ P Q c hc,
    fun P Q c hc => onRow_congr _ P Q c hc, fun P Q c hc => onRow_congr _ P Q c hc⟩
  have h1 : ∀ j, i - 3 ≤ j → j ≤ i + 3 →
      onRow pRatioStep0 U j = onRow pRatioStep0 V j := fun j hl hu =>
    onRow_congr _ U V j (fun k hk1 hk2 => h k (by omega) (by omega))
  have h2 : ∀ j, i - 2 ≤ j → j ≤ i + 2 →
      onRow updateStep0 (onRow pRatioStep0 U) j
        = onRow updateStep0 (onRow pRatioStep0 V) j := fun j hl hu =>
    onRow_congr _ _ _ j (fun k hk1 hk2 => h1 k (by omega) (by omega))
  have h3 : ∀ j, i - 1 ≤ j → j ≤ i + 1 →
      onRow pRatioStep1 (onRow updateStep0 (onRow pRatioStep0 U)) j
        = onRow pRatioStep1 (onRow updateStep0 (onRow pRatioStep0 V)) j := fun j hl hu =>
    onRow_congr _ _ _ j (fun k hk1 hk2 => h2 k (by omega) (by omega))
  exact onRow_congr _ _ _ i h3

/-- A full timestep leaves cell `i` unchanged when the cells `i - 2 .. i + 2` all
hold the same triple. -/
theorem fullStep_of_uniform (U : ℤ → SP3 α) (s : SP3 α) (i : ℤ)
    (hU : ∀ j, i - 2 ≤ j → j ≤ i + 2 → U j = s) :
    fullStep U i = s := by
  have h4 : ∀ j, i - 2 ≤ j → j ≤ i + 2 → (onRow pRatioStep0 U j).w = s.w := by
    intro j hl hu
    show (U j).w = s.w
    rw [hU j hl hu]
  have h6 : ∀ j, i - 1 ≤ j → j ≤ i + 1 →
      (onRow updateStep0 (onRow pRatioStep0 U) j).h = s.w := by
    intro j hl hu
    obtain ⟨_, e3, e4, e5⟩ := updateStep0_of_same (onRow pRatioStep0 U (j - 1))
      (onRow pRatioStep0 U j) (onRow pRatioStep0 U (j + 1))
      (by rw [h4 (j - 1) (by omega) (by omega), h4 j (by omega) (by omega)])
      (by rw [h4 (j + 1) (by omega) (by omega), h4 j (by omega) (by omega)])
    have hj := hU j (by omega) (by omega)
    refine Vec3.ext3 ?_ ?_ ?_
    · show (onRow updateStep0 (onRow pRatioStep0 U) j).f3 = s.f0
      rw [show (onRow updateStep0 (onRow pRatioStep0 U) j).f3
        = (onRow pRatioStep0 U j).f0 from e3]
      show (U j).f0 = s.f0
      rw [hj]
    · show (onRow updateStep0 (onRow pRatioStep0 U) j).f4 = s.f1
      rw [show (onRow updateStep0 (onRow pRatioStep0 U) j).f4
        = (onRow pRatioStep0 U j).f1 from e4]
      show (U j).f1 = s.f1
      rw [hj]
    · show (onRow updateStep0 (onRow pRatioStep0 U) j).f5 = s.f2
      rw [show (onRow updateStep0 (onRow pRatioStep0 U) j).f5
        = (onRow pRatioStep0 U j).f2 from e5]
      show (U j).f2 = s.f2
      rw [hj]
  have h7 : ∀ j, i - 1 ≤ j → j ≤ i + 1 →
      (onRow pRatioStep1 (onRow updateStep0 (onRow pRatioStep0 U)) j).h = s.w :=
    fun j hl hu => h6 j hl hu
  obtain ⟨_, e0, e1, e2⟩ := updateStep1_of_same
    (onRow pRatioStep1 (onRow updateStep0 (onRow pRatioStep0 U)) (i - 1))
    (onRow pRatioStep1 (onRow updateStep0 (onRow pRatioStep0 U)) i)
    (onRow pRatioStep1 (onRow updateStep0 (onRow pRatioStep0 U)) (i + 1))
    (by rw [h7 (i - 1) (by omega) (by omega), h7 i (by omega) (by omega)])
    (by rw [h7 (i + 1) (by omega) (by omega), h7 i (by omega) (by omega)])
  have hi := hU i (by omega) (by omega)
  refine SP3.eq_of_fields ?_ ?_ ?_
  · rw [show (fullStep U i).f0
      = (onRow pRatioStep1 (onRow updateStep0 (onRow pRatioStep0 U)) i).f0 from e0]
    show (U i).f0 = s.f0
    rw [hi]
  · rw [show (fullStep U i).f1
      = (onRow pRatioStep1 (onRow updateStep0 (onRow pRatioStep0 U)) i).f1 from e1]
    show (U i).f1 = s.f1
    rw [hi]
  · rw [show (fullStep U i).f2
      = (onRow pRatioStep1 (onRow updateStep0 (onRow pRatioStep0 U)) i).f2 from e2]
    show (U i).f2 = s.f2
    rw [hi]

/-- After `k` full timesteps a stretch `lo .. hi` of cells holding one triple has
shrunk by two cells per step at each end: the cells `lo + 2k .. hi - 2k` still
hold that triple, whatever the row holds outside the stretch. -/
theorem run_of_uniform (U : ℤ → SP3 α) (s : SP3 α) (lo hi : ℤ)
    (hU : ∀ j, lo ≤ j → j ≤ hi → U j = s) (k : ℕ) :
    ∀ j, lo + 2 * (k : ℤ) ≤ j → j ≤ hi - 2 * (k : ℤ) → run k U j = s := by
  induction k with
  | zero =>
    intro j hl hu
    exact hU j (by simpa using hl) (by simpa using hu)
  | succ k ih =>
    intro j hl hu
    have hstep : run (k + 1) U = fullStep (run k U) := by
      simp only [run]
      exact Function.iterate_succ_apply' fullStep k U
    rw [hstep]
    apply fullStep_of_uniform
    intro c hc1 hc2
    apply ih c
    · push_cast at hl
      omega
    · push_cast at hu
      omega

end Rows

section Admissibility

variable {α : Type} [LinearOrderedField α] [HasSqrt α]

/-- Claim C15, amended (reconstruction preserves physical admissibility in
exact arithmetic): computed without rounding, when the
triples `a`, `b` of two cells both have `rho > 0` and pressure `≥ 0`, then for
every ratio `r` (finite of any sign, zero, infinite or NaN) the face triple
obtained by reconstructing the three components with that one `r` has `rho > 0`
and pressure `≥ 0`; so both face states that `eulerFlux0` and `eulerFlux1` pass
to `eulerFlux` are admissible, and in particular have positive density. -/
theorem reconstruction_preserves_admissibility (a b : Vec3 α) (r : Dbl α)
    (ha : Admissible a) (hb : Admissible b) :
    (0 < (fun i => limitedReconstruction (a i) (b i) r) 0
      ∧ 0 ≤ pressure ((fun i => limitedReconstruction (a i) (b i) r) 0)
              ((fun i => limitedReconstruction (a i) (b i) r) 1)
              ((fun i => limitedReconstruction (a i) (b i) r) 2))
    ∧ (∀ L R : SP4 α, L.w = a → R.w = b →
        eulerFlux0 L R
            = eulerFlux (fun i => limitedReconstruction (L.w i) (R.w i) L.f3)
                (fun i => limitedReconstruction (R.w i) (L.w i) (Dbl.recip R.f3))
        ∧ Admissible (fun i => limitedReconstruction (L.w i) (R.w i) L.f3)
        ∧ Admissible (fun i => limitedReconstruction (R.w i) (L.w i) (Dbl.recip R.f3)))
    ∧ (∀ L R : SP7 α, L.h = a → R.h = b →
        eulerFlux1 L R
            = eulerFlux (fun i => limitedReconstruction (L.h i) (R.h i) L.f6)
                (fun i => limitedReconstruction (R.h i) (L.h i) (Dbl.recip R.f6))
        ∧ Admissible (fun i => limitedReconstruction (L.h i) (R.h i) L.f6)
        ∧ Admissible (fun i => limitedReconstruction (R.h i) (L.h i) (Dbl.recip R.f6))) := by
  refine ⟨admissible_reconstruction a b r ha hb, ?_, ?_⟩
  · intro L R hL hR
    refine ⟨eulerFlux0_eq_limitedFaceFlux L R, ?_, ?_⟩
    · rw [hL, hR]
      exact admissible_reconstruction a b _ ha hb
    · rw [hL, hR]
      exact admissible_reconstruction b a _ hb ha
  · intro L R hL hR
    refine ⟨eulerFlux1_eq_limitedFaceFlux L R, ?_, ?_⟩
    · rw [hL, hR]
      exact admissible_reconstruction a b _ ha hb
    · rw [hL, hR]
      exact admissible_reconstruction b a _ hb ha

/-- Witness of the amended C15 over the rationals: the two Sod states `(1, 0, 5/2)` and
`(1/8, 0, 1/4)` with the ratio `1/2`; the face density is `25/32`. -/
theorem reconstruction_preserves_admissibility_witness :
    Admissible (![1, 0, 5 / 2] : Vec3 ℚ) ∧ Admissible (![1 / 8, 0, 1 / 4] : Vec3 ℚ)
    ∧ limitedReconstruction (1 : ℚ) (1 / 8) (Dbl.fin (1 / 2)) = 25 / 32
    ∧ 0 < limitedReconstruction ((![1, 0, 5 / 2] : Vec3 ℚ) 0)
            ((![1 / 8, 0, 1 / 4] : Vec3 ℚ) 0) (Dbl.fin (1 / 2)) := by
  have ha : Admissible (![1, 0, 5 / 2] : Vec3 ℚ) := by
    constructor
    · norm_num [Vec3.get0]
    · norm_num [Vec3.get0, Vec3.get1, Vec3.get2, pressure]
  have hb : Admissible (![1 / 8, 0, 1 / 4] : Vec3 ℚ) := by
    constructor
    · norm_num [Vec3.get0]
    · norm_num [Vec3.get0, Vec3.get1, Vec3.get2, pressure]
  refine ⟨ha, hb, ?_,
    (reconstruction_preserves_admissibility _ _ (Dbl.fin (1 / 2)) ha hb).1.1⟩
  norm_num [limitedReconstruction]

/-- The local `spectralRadius` of `eulerFlux` in terms of the averaged state. -/
theorem spectralRadius_eq_avg (wMinus wPlus : Vec3 α) :
    spectralRadius wMinus wPlus
      = HasSqrt.sqrt (1.4 * pAvg wMinus wPlus / rhoAvg wMinus wPlus)
        + |uAvg wMinus wPlus| := rfl

/-- The averaged state of two admissible triples, in exact arithmetic with a
`sqrt` that is positive on positive numbers: the averaged density is positive,
the averaged velocity lies between the two velocities, the averaged pressure is
`≥ 0` and so is the argument of the sound-speed square root. -/
theorem averaged_state_admissible (wMinus wPlus : Vec3 α)
    (hM : Admissible wMinus) (hP : Admissible wPlus)
    (hsqrt : ∀ x : α, 0 < x → 0 < HasSqrt.sqrt x) :
    0 < rhoAvg wMinus wPlus
    ∧ (min (wMinus 1 / wMinus 0) (wPlus 1 / wPlus 0) ≤ uAvg wMinus wPlus
      ∧ uAvg wMinus wPlus ≤ max (wMinus 1 / wMinus 0) (wPlus 1 / wPlus 0))
    ∧ 0 ≤ pAvg wMinus wPlus
    ∧ 0 ≤ 1.4 * pAvg wMinus wPlus / rhoAvg wMinus wPlus := by
  have hsM : 0 < HasSqrt.sqrt (wMinus 0) := hsqrt _ hM.1
  have hsP : 0 < HasSqrt.sqrt (wPlus 0) := hsqrt _ hP.1
  have hrho : 0 < rhoAvg wMinus wPlus := mul_pos hsM hsP
  obtain ⟨hmin, hmax, hsq⟩ := weighted_average_bounds (HasSqrt.sqrt (wMinus 0))
    (HasSqrt.sqrt (wPlus 0)) (wMinus 1 / wMinus 0) (wPlus 1 / wPlus 0)
    (wMinus 2 / wMinus 0) (wPlus 2 / wPlus 0) hsM hsP
    (admissible_velocity_sq wMinus hM) (admissible_velocity_sq wPlus hP)
  have hp : 0 ≤ pAvg wMinus wPlus := by
    rw [pAvg, pressure_nonneg_iff_sq _ _ _ hrho]
    have hu : uAvg wMinus wPlus * uAvg wMinus wPlus ≤ 2 * EAvg wMinus wPlus := hsq
    have h2 : 0 ≤ rhoAvg wMinus wPlus * rhoAvg wMinus wPlus := mul_self_nonneg _
    have := mul_le_mul_of_nonneg_left hu h2
    calc rhoAvg wMinus wPlus * uAvg wMinus wPlus * (rhoAvg wMinus wPlus * uAvg wMinus wPlus)
        = rhoAvg wMinus wPlus * rhoAvg wMinus wPlus
            * (uAvg wMinus wPlus * uAvg wMinus wPlus) := by ring
      _ ≤ rhoAvg wMinus wPlus * rhoAvg wMinus wPlus * (2 * EAvg wMinus wPlus) := this
      _ = 2 * rhoAvg wMinus wPlus * (rhoAvg wMinus wPlus * EAvg wMinus wPlus) := by ring
  exact ⟨hrho, ⟨hmin, hmax⟩, hp, div_nonneg (mul_nonneg (by norm_num) hp) hrho.le⟩

/-- On admissible triples no `sqrt` of `eulerFlux` receives a negative
argument: the checked flux is the flux. -/
theorem eulerFluxChecked_of_admissible (wMinus wPlus : Vec3 α)
    (hM : Admissible wMinus) (hP : Admissible wPlus)
    (hsqrt : ∀ x : α, 0 < x → 0 < HasSqrt.sqrt x) :
    eulerFluxChecked wMinus wPlus = some (eulerFlux wMinus wPlus) := by
  have h := averaged_state_admissible wMinus wPlus hM hP hsqrt
  unfold eulerFluxChecked
  rw [if_pos ⟨hM.1.le, hP.1.le, h.2.2.2⟩]

/-- Claim C16, amended (`eulerFlux` is well defined on admissible inputs in
exact arithmetic): computed without rounding, when both triples have `rho > 0`
and pressure `≥ 0`, and `sqrt` is positive on positive numbers and non-negative
on non-negative ones, every divisor in `eulerFlux` (`rhoMinus`, `rhoPlus`,
`sqrt(rhoMinus) + sqrt(rhoPlus)` and the averaged density
`sqrt(rhoMinus)*sqrt(rhoPlus)`) is strictly positive, the averaged velocity lies
between `uMinus` and `uPlus`, the pressure of the averaged state is `≥ 0`, the
argument of the sound-speed square root is `≥ 0`, so that no `sqrt` of
`eulerFlux` receives a negative argument, and the spectral radius, with which
`eulerFlux` is the central flux plus `0.5*spectralRadius*(wMinus - wPlus)`, is
`≥ |uAvg|`. -/
theorem eulerFlux_well_defined (wMinus wPlus : Vec3 α)
    (hM : Admissible wMinus) (hP : Admissible wPlus)
    (hsqrt : ∀ x : α, 0 < x → 0 < HasSqrt.sqrt x)
    (hsqrt0 : ∀ x : α, 0 ≤ x → 0 ≤ HasSqrt.sqrt x) :
    (0 < wMinus 0 ∧ 0 < wPlus 0
      ∧ 0 < HasSqrt.sqrt (wMinus 0) + HasSqrt.sqrt (wPlus 0)
      ∧ 0 < rhoAvg wMinus wPlus)
    ∧ (min (wMinus 1 / wMinus 0) (wPlus 1 / wPlus 0) ≤ uAvg wMinus wPlus
      ∧ uAvg wMinus wPlus ≤ max (wMinus 1 / wMinus 0) (wPlus 1 / wPlus 0))
    ∧ 0 ≤ pAvg wMinus wPlus
    ∧ 0 ≤ 1.4 * pAvg wMinus wPlus / rhoAvg wMinus wPlus
    ∧ spectralRadius wMinus wPlus
        = HasSqrt.sqrt (1.4 * pAvg wMinus wPlus / rhoAvg wMinus wPlus)
          + |uAvg wMinus wPlus|
    ∧ |uAvg wMinus wPlus| ≤ spectralRadius wMinus wPlus
    ∧ eulerFluxChecked wMinus wPlus = some (eulerFlux wMinus wPlus)
    ∧ (∀ i, eulerFlux wMinus wPlus i
        = centralFlux wMinus wPlus i
          + 0.5 * (HasSqrt.sqrt (1.4 * pAvg wMinus wPlus / rhoAvg wMinus wPlus)
              + |uAvg wMinus wPlus|) * (wMinus i - wPlus i)) := by
  obtain ⟨hrho, hu, hp, harg⟩ := averaged_state_admissible wMinus wPlus hM hP hsqrt
  have hs := spectralRadius_eq_avg wMinus wPlus
  refine ⟨⟨hM.1, hP.1, add_pos (hsqrt _ hM.1) (hsqrt _ hP.1), hrho⟩, hu, hp, harg, hs, ?_,
    eulerFluxChecked_of_admissible wMinus wPlus hM hP hsqrt, ?_⟩
  · rw [hs]
    have := hsqrt0 _ harg
    linarith
  · intro i
    rw [eulerFlux_eq_central_add_dissipation, ← hs]
    fin_cases i <;> rfl

/-- Witness of the amended C16 over the rationals, with the rational square
root: the triples `(1, 0, 5/2)` and `(4, 1, 1/4)`. -/
theorem eulerFlux_well_defined_witness :
    Admissible (![1, 0, 5 / 2] : Vec3 ℚ) ∧ Admissible (![4, 1, 1 / 4] : Vec3 ℚ)
    ∧ (∀ x : ℚ, 0 < x → 0 < HasSqrt.sqrt x) ∧ (∀ x : ℚ, 0 ≤ x → 0 ≤ HasSqrt.sqrt x)
    ∧ 0 ≤ pAvg (![1, 0, 5 / 2] : Vec3 ℚ) ![4, 1, 1 / 4]
    ∧ |uAvg (![1, 0, 5 / 2] : Vec3 ℚ) ![4, 1, 1 / 4]|
        ≤ spectralRadius (![1, 0, 5 / 2] : Vec3 ℚ) ![4, 1, 1 / 4]
    ∧ eulerFluxChecked (![1, 0, 5 / 2] : Vec3 ℚ) ![4, 1, 1 / 4]
        = some (eulerFlux (![1, 0, 5 / 2] : Vec3 ℚ) ![4, 1, 1 / 4]) := by
  have ha : Admissible (![1, 0, 5 / 2] : Vec3 ℚ) := by
    constructor
    · norm_num [Vec3.get0]
    · norm_num [Vec3.get0, Vec3.get1, Vec3.get2, pressure]
  have hb : Admissible (![4, 1, 1 / 4] : Vec3 ℚ) := by
    constructor
    · norm_num [Vec3.get0]
    · norm_num [Vec3.get0, Vec3.get1, Vec3.get2, pressure]
  have h1 : ∀ x : ℚ, 0 < x → 0 < HasSqrt.sqrt x := fun x hx => rat_sqrt_pos x hx
  have h2 : ∀ x : ℚ, 0 ≤ x → 0 ≤ HasSqrt.sqrt x := fun x _ => Rat.sqrt_nonneg x
  have h := eulerFlux_well_defined (![1, 0, 5 / 2] : Vec3 ℚ) ![4, 1, 1 / 4] ha hb h1 h2
  exact ⟨ha, hb, h1, h2, h.2.2.1, h.2.2.2.2.2.1, h.2.2.2.2.2.2.1⟩

/-- For equal triples with `rho > 0` the argument of the sound-speed square
root is `gamma * p / rho` of the triple itself. -/
theorem soundSpeedArg_self (w : Vec3 α) (hrho : 0 < w 0)
    (hs : 0 < HasSqrt.sqrt (w 0)) :
    1.4 * pAvg w w / rhoAvg w w = 1.4 * pressure (w 0) (w 1) (w 2) / w 0 := by
  have h0 : w 0 ≠ 0 := ne_of_gt hrho
  have hs0 : HasSqrt.sqrt (w 0) ≠ 0 := ne_of_gt hs
  have hss : HasSqrt.sqrt (w 0) + HasSqrt.sqrt (w 0) ≠ 0 := ne_of_gt (add_pos hs hs)
  simp only [pAvg, rhoAvg, uAvg, EAvg, pressure]
  field_simp
  ring

/-- With `rho > 0` and a negative pressure the sound-speed square root of
`eulerFlux(w, w)` receives a negative argument: the checked flux has no value. -/
theorem eulerFluxChecked_of_neg_pressure (w : Vec3 α) (hrho : 0 < w 0)
    (hp : pressure (w 0) (w 1) (w 2) < 0)
    (hsqrt : ∀ x : α, 0 < x → 0 < HasSqrt.sqrt x) :
    eulerFluxChecked w w = none := by
  have harg : 1.4 * pAvg w w / rhoAvg w w < 0 := by
    rw [soundSpeedArg_self w hrho (hsqrt _ hrho)]
    exact div_neg_of_neg_of_pos (mul_neg_of_pos_of_neg (by norm_num) hp) hrho
  unfold eulerFluxChecked
  rw [if_neg]
  intro h
  exact absurd h.2.2 (not_le.mpr harg)

/-- Claim C4, amended (flux consistency in exact arithmetic): computed without
rounding and with a `sqrt` that is positive on positive numbers, for a triple
`w = (rho, rhoU, rhoE)` with `rho > 0` and pressure `≥ 0` no `sqrt` of
`eulerFlux(w, w)` receives a negative argument (the argument of the sound-speed
square root is `gamma * p / rho ≥ 0`), `eulerFlux(w, w)` is the physical Euler
flux `(rhoU, rhoU^2/rho + p, (rhoU/rho)*(rhoE + p))` with `p = pressure(w)`, and
the dissipation term added to each of the three components is zero. -/
theorem eulerFlux_consistent (w : Vec3 α) (hrho : 0 < w 0)
    (hp : 0 ≤ pressure (w 0) (w 1) (w 2))
    (hsqrt : ∀ x : α, 0 < x → 0 < HasSqrt.sqrt x) :
    eulerFluxChecked w w
      = some ![w 1,
          w 1 ^ 2 / w 0 + pressure (w 0) (w 1) (w 2),
          (w 1 / w 0) * (w 2 + pressure (w 0) (w 1) (w 2))]
    ∧ 1.4 * pAvg w w / rhoAvg w w = 1.4 * pressure (w 0) (w 1) (w 2) / w 0
    ∧ 0 ≤ 1.4 * pAvg w w / rhoAvg w w
    ∧ eulerFlux w w
      = ![w 1,
          w 1 ^ 2 / w 0 + pressure (w 0) (w 1) (w 2),
          (w 1 / w 0) * (w 2 + pressure (w 0) (w 1) (w 2))]
    ∧ dissipation w w = ![0, 0, 0]
    ∧ eulerFlux w w = centralFlux w w := by
  have hadm : Admissible w := ⟨hrho, hp⟩
  have hself := eulerFlux_self w hrho
  have hchk := eulerFluxChecked_of_admissible w w hadm hadm hsqrt
  rw [hself.1] at hchk
  exact ⟨hchk, soundSpeedArg_self w hrho (hsqrt _ hrho),
    (averaged_state_admissible w w hadm hadm hsqrt).2.2.2, hself.1, hself.2.1, hself.2.2⟩

/-- Witness of the amended C4 at `w = (4, 2, 10)` over the rationals, where the
pressure is `19/5` and the flux is `(2, 24/5, 69/10)`. -/
theorem eulerFlux_consistent_witness :
    (0 : ℚ) < (![4, 2, 10] : Vec3 ℚ) 0
    ∧ 0 ≤ pressure ((![4, 2, 10] : Vec3 ℚ) 0) ((![4, 2, 10] : Vec3 ℚ) 1)
        ((![4, 2, 10] : Vec3 ℚ) 2)
    ∧ eulerFlux (![4, 2, 10] : Vec3 ℚ) ![4, 2, 10] = ![2, 24 / 5, 69 / 10]
    ∧ eulerFluxChecked (![4, 2, 10] : Vec3 ℚ) ![4, 2, 10] = some ![2, 24 / 5, 69 / 10]
    ∧ dissipation (![4, 2, 10] : Vec3 ℚ) ![4, 2, 10] = ![0, 0, 0] := by
  have hp : 0 ≤ pressure ((![4, 2, 10] : Vec3 ℚ) 0) ((![4, 2, 10] : Vec3 ℚ) 1)
      ((![4, 2, 10] : Vec3 ℚ) 2) := by
    norm_num [Vec3.get0, Vec3.get1, Vec3.get2, pressure]
  have h := eulerFlux_consistent (![4, 2, 10] : Vec3 ℚ) (by norm_num [Vec3.get0]) hp
    (fun x hx => rat_sqrt_pos x hx)
  have hv : (![(![4, 2, 10] : Vec3 ℚ) 1,
      (![4, 2, 10] : Vec3 ℚ) 1 ^ 2 / (![4, 2, 10] : Vec3 ℚ) 0
        + pressure ((![4, 2, 10] : Vec3 ℚ) 0) ((![4, 2, 10] : Vec3 ℚ) 1)
            ((![4, 2, 10] : Vec3 ℚ) 2),
      ((![4, 2, 10] : Vec3 ℚ) 1 / (![4, 2, 10] : Vec3 ℚ) 0)
        * ((![4, 2, 10] : Vec3 ℚ) 2
            + pressure ((![4, 2, 10] : Vec3 ℚ) 0) ((![4, 2, 10] : Vec3 ℚ) 1)
                ((![4, 2, 10] : Vec3 ℚ) 2))] : Vec3 ℚ) = ![2, 24 / 5, 69 / 10] := by
    refine Vec3.ext3 ?_ ?_ ?_
    · norm_num [Vec3.get0, Vec3.get1]
    · norm_num [Vec3.get0, Vec3.get1, Vec3.get2, pressure]
    · norm_num [Vec3.get0, Vec3.get1, Vec3.get2, pressure]
  refine ⟨by norm_num [Vec3.get0], hp, ?_, ?_, h.2.2.2.2.1⟩
  · rw [h.2.2.2.1, hv]
  · rw [h.1, hv]

end Admissibility

section Binary64

/-! ## The program on `double`

The theorems of this section are about the embedding `B64` of the program on
the binary64 model `F64`: every operation is rounded as the machine rounds it.
The concrete evaluations are checked by the kernel. -/

namespace F64

theorem zero_lit : (0 : F64) = fin false 0 0 := by decide

theorem one_lit : (1.0 : F64) = fin false 4503599627370496 1022 := by decide!

/-- The operator `-` is `sub`. -/
theorem sub_eq (a b : F64) : a - b = add a (neg b) := rfl

/-- Rounding zero gives the zero of the given sign. -/
theorem round_zero (h : ℕ) (s : Bool) (E : ℕ) : round h s 0 E = fin s 0 0 := rfl

/-- The test `x + k < x` fails. -/
theorem blt_add_self (x k : ℕ) : Nat.blt (x + k) x = false := by
  cases h : Nat.blt (x + k) x
  · rfl
  · rw [Nat.blt_eq] at h
    omega

/-- The difference of two equal magnitudes is `+0`. -/
theorem subMag_self (s : Bool) (m x : ℕ) : ∃ z, subMag s m x m x = fin false 0 z := by
  cases m with
  | zero => exact ⟨x, rfl⟩
  | succ k =>
    refine ⟨0, ?_⟩
    have h1 : Nat.beq (k + 1) 0 = false := rfl
    have h2 : Nat.ble x x = true := by rw [Nat.ble_eq]
    have h3 : Nat.beq ((k + 1) * Nat.pow 2 (x - x)) (k + 1) = true := by
      rw [Nat.sub_self]
      simp
    simp only [subMag, h1, blt_add_self, h2, subAligned, h3, cond_true, cond_false]

/-- A finite number minus itself is a `+0`. -/
theorem sub_self_of_isfinite (a : F64) (h : a.isfinite = true) :
    ∃ x, a - a = fin false 0 x := by
  cases a with
  | fin s m x =>
    obtain ⟨z, hz⟩ := subMag_self s m x
    refine ⟨z, ?_⟩
    cases s <;> simpa [sub_eq, add, neg] using hz
  | inf s => simp [isfinite] at h
  | nan => simp [isfinite] at h

/-- Subtracting `+0` changes nothing. -/
theorem sub_pos_zero (a : F64) : a - fin false 0 0 = a := by
  cases a with
  | fin s m x =>
    cases s
    · cases m with
      | zero => rfl
      | succ k => rfl
    · rfl
  | inf s => rfl
  | nan => rfl

/-- Adding `+0` changes nothing, except that `-0 + +0` is `+0`. -/
theorem add_pos_zero (a : F64) (h : a.isNegZero = false) : a + fin false 0 0 = a := by
  cases a with
  | fin s m x =>
    cases s
    · rfl
    · cases m with
      | zero => simp [isNegZero] at h
      | succ k => rfl
  | inf s => rfl
  | nan => rfl

/-- A finite number times a `+0` is the zero with the sign of the number. -/
theorem fin_mul_pos_zero (s : Bool) (m e x : ℕ) : fin s m e * fin false 0 x = fin s 0 0 := by
  show round 104 (xor s false) (m * 0) (e + x + 1948) = fin s 0 0
  rw [Nat.mul_zero, round_zero, Bool.xor_false]

/-- A `+0` times a positive finite number is `+0`. -/
theorem pos_zero_mul_fin (n y : ℕ) : fin false 0 0 * fin false n y = fin false 0 0 := by
  show round 104 (xor false false) (0 * n) (0 + y + 1948) = fin false 0 0
  rw [Nat.zero_mul, round_zero]
  rfl

/-- A number that passes the test `isfinite(r) && r > 0` is finite and positive. -/
theorem pos_of_gt_zero (r : F64) (h : (r.isfinite && r.gt 0) = true) :
    ∃ n y, r = fin false n y := by
  cases r with
  | fin s n y =>
    cases s
    · exact ⟨n, y, rfl⟩
    · simp [gt, zero_lit, lt] at h
  | inf s => simp [isfinite] at h
  | nan => simp [isfinite] at h

/-- The limiter `std::min(r, 1.0)` of a finite positive `r` is finite and positive. -/
theorem min_one_pos (n y : ℕ) : ∃ n1 y1, min (fin false n y) 1.0 = fin false n1 y1 := by
  unfold min
  cases lt 1.0 (fin false n y)
  · exact ⟨n, y, rfl⟩
  · exact ⟨_, _, one_lit⟩

/-- The model at known values of binary64 arithmetic: `0.1 + 0.2` is
`0.30000000000000004`, `1/3`, `sqrt 2`, the constants of `init`, a tie rounded to
the even significand down and up, underflow to the subnormal numbers, overflow to
the infinity, and the results on zeros of either sign, infinities and NaN. -/
theorem arithmetic_checks :
    ((0.1 : F64) + 0.2 = F64.fin false 5404319552844596 1020)
    ∧ ((1 : F64) / 3 = F64.fin false 6004799503160661 1020)
    ∧ (F64.sqrt 2 = F64.fin false 6369051672525773 1022)
    ∧ ((1.4 : F64) - 1 = F64.fin false 7205759403792792 1020)
    ∧ ((0.1 : F64) * 3 = F64.fin false 5404319552844596 1020)
    ∧ ((1 : F64) / (1.4 - 1) = F64.fin false 5629499534213121 1023)
    ∧ ((0.1 : F64) / (1.4 - 1) = F64.fin false 4503599627370497 1020)
    ∧ ((1 : F64) + F64.fin false 4503599627370496 969 = F64.fin false 4503599627370496 1022)
    ∧ ((1 : F64) + F64.fin false 6755399441055744 970 = F64.fin false 4503599627370498 1022)
    ∧ (F64.fin false 1 0 / 2 = F64.fin false 0 0)
    ∧ (F64.fin false 3 0 / 2 = F64.fin false 2 0)
    ∧ (F64.fin false 9007199254740991 2045 * 2 = F64.inf false)
    ∧ (F64.fin false 9007199254740991 2045 + F64.fin false 9007199254740991 2045 = F64.inf false)
    ∧ (F64.sqrt (F64.fin false 1 0) = F64.fin false 4503599627370496 485)
    ∧ (F64.sqrt (-1) = F64.nan)
    ∧ (F64.sqrt (F64.fin true 0 0) = F64.fin true 0 0)
    ∧ ((1 : F64) / 0 = F64.inf false)
    ∧ ((-1 : F64) / 0 = F64.inf true)
    ∧ ((0 : F64) / 0 = F64.nan)
    ∧ (F64.inf false - F64.inf false = F64.nan)
    ∧ (F64.inf false * 0 = F64.nan)
    ∧ ((0 : F64) - 0 = F64.fin false 0 0)
    ∧ ((-0 : F64) + 0 = F64.fin false 0 0)
    ∧ ((-0 : F64) - 0 = F64.fin true 0 0)
    ∧ ((1 : F64) - 1 = F64.fin false 0 0)
    ∧ ((1e16 : F64) + 1 = F64.fin false 5000000000000000 1075)
    ∧ ((1e16 : F64) - 1e-5 = F64.fin false 5000000000000000 1075)
    ∧ ((3.5 : F64) * 0.1 = F64.fin false 6305039478318695 1020)
    ∧ ((2.5 : F64) / 0.3 = F64.fin false 4691249611844267 1025)
    ∧ (F64.sqrt 0.56 = F64.fin false 6740370725129275 1021) := by
  decide!

end F64

namespace B64

/-- A triple is the triple of its components. -/
theorem vec3_eta (w : Vec3 F64) : (![w 0, w 1, w 2] : Vec3 F64) = w := by
  funext i; fin_cases i <;> rfl

/-- A function on `Fin 3` is the triple of its values. -/
theorem vec3_eta_fun (f : Fin 3 → F64) : (fun i => f i) = ![f 0, f 1, f 2] := by
  funext i; fin_cases i <;> rfl

/-- The view `nbr(0)` of the cell at position `p` is the cell at `p - 1`. -/
theorem nbr_zero {n : ℕ} (row : ℤ → Fin n → F64) (p : ℤ) :
    (SpatialPoint.nbr { row := row, pos := p } 0) = { row := row, pos := p - 1 } := rfl

/-- The view `nbr(1)` of the cell at position `p` is the cell at `p + 1`. -/
theorem nbr_one {n : ℕ} (row : ℤ → Fin n → F64) (p : ℤ) :
    (SpatialPoint.nbr { row := row, pos := p } 1) = { row := row, pos := p + 1 } := rfl

/-- Between equal values the reconstruction returns that value, whatever the
ratio: the increment is `0.5 * (+0) * limiter = +0`. -/
theorem limitedReconstruction_same (w r : F64) (hf : w.isfinite = true)
    (hz : w.isNegZero = false) : limitedReconstruction w w r = w := by
  unfold limitedReconstruction
  split
  · rename_i h
    obtain ⟨n, y, rfl⟩ := F64.pos_of_gt_zero r h
    obtain ⟨n1, y1, h1⟩ := F64.min_one_pos n y
    obtain ⟨x, hx⟩ := F64.sub_self_of_isfinite w hf
    have h5 : (0.5 : F64) = F64.fin false 4503599627370496 1021 := by decide!
    simp only [h1, hx, h5, F64.fin_mul_pos_zero, F64.pos_zero_mul_fin]
    exact F64.add_pos_zero w hz
  · rfl

/-- The scaled difference of a finite flux component with itself is `+0`, with
the factor `0.5 * DT / DX` of `updateStep0` and with the factor `DT / DX` of
`updateStep1`. -/
theorem scaled_self_difference (F : F64) (hF : F.isfinite = true) :
    0.5 * DT * (F - F) / DX = F64.fin false 0 0 ∧ DT * (F - F) / DX = F64.fin false 0 0 := by
  obtain ⟨x, hx⟩ := F64.sub_self_of_isfinite F hF
  have h1 : (0.5 : F64) * DT = F64.fin false 5764607523034235 1015 := by decide!
  have h2 : DT = F64.fin false 5764607523034235 1016 := by decide!
  have h3 : F64.fin false 0 0 / DX = F64.fin false 0 0 := by decide!
  rw [hx, h1]
  constructor
  · rw [F64.fin_mul_pos_zero, h3]
  · rw [h2, F64.fin_mul_pos_zero, h3]

/-- The face flux of `eulerFlux0` between two cells that carry the same triple. -/
theorem eulerFlux0_uniform (w : Vec3 F64) (hfin : ∀ i, (w i).isfinite = true)
    (hz : ∀ i, (w i).isNegZero = false) (L R : SpatialPoint 4)
    (hL : fields012 L = w) (hR : fields012 R = w) :
    eulerFlux0 L R = eulerFlux w w := by
  have l0 : L.inputs 0 = w 0 := congrFun hL 0
  have l1 : L.inputs 1 = w 1 := congrFun hL 1
  have l2 : L.inputs 2 = w 2 := congrFun hL 2
  have r0 : R.inputs 0 = w 0 := congrFun hR 0
  have r1 : R.inputs 1 = w 1 := congrFun hR 1
  have r2 : R.inputs 2 = w 2 := congrFun hR 2
  unfold eulerFlux0
  simp only [l0, l1, l2, r0, r1, r2, limitedReconstruction_same _ _ (hfin _) (hz _), vec3_eta]

/-- The face flux of `eulerFlux1` between two cells that carry the same triple. -/
theorem eulerFlux1_uniform (w : Vec3 F64) (hfin : ∀ i, (w i).isfinite = true)
    (hz : ∀ i, (w i).isNegZero = false) (L R : SpatialPoint 7)
    (hL : fields345 L = w) (hR : fields345 R = w) :
    eulerFlux1 L R = eulerFlux w w := by
  have l0 : L.inputs 3 = w 0 := congrFun hL 0
  have l1 : L.inputs 4 = w 1 := congrFun hL 1
  have l2 : L.inputs 5 = w 2 := congrFun hL 2
  have r0 : R.inputs 3 = w 0 := congrFun hR 0
  have r1 : R.inputs 4 = w 1 := congrFun hR 1
  have r2 : R.inputs 5 = w 2 := congrFun hR 2
  unfold eulerFlux1
  simp only [l0, l1, l2, r0, r1, r2, limitedReconstruction_same _ _ (hfin _) (hz _), vec3_eta]

/-- The stage `updateStep0` on a cell whose neighbours carry its triple. -/
theorem updateStep0_uniform (w : Vec3 F64) (hfin : ∀ i, (w i).isfinite = true)
    (hz : ∀ i, (w i).isNegZero = false) (hflux : ∀ i, (eulerFlux w w i).isfinite = true)
    (sp : SpatialPoint 4)
    (hL : fields012 (sp.nbr 0) = w) (hC : fields012 sp = w) (hR : fields012 (sp.nbr 1) = w) :
    eulerFlux0 (sp.nbr 0) sp = eulerFlux0 sp (sp.nbr 1)
    ∧ eulerFlux0 sp (sp.nbr 1) = eulerFlux w w
    ∧ updateStep0 sp 3 = sp.inputs 0
    ∧ updateStep0 sp 4 = sp.inputs 1
    ∧ updateStep0 sp 5 = sp.inputs 2 := by
  have eL := eulerFlux0_uniform w hfin hz _ _ hL hC
  have eR := eulerFlux0_uniform w hfin hz _ _ hC hR
  refine ⟨eL.trans eR.symm, eR, ?_, ?_, ?_⟩
  · show sp.inputs 0 - 0.5 * DT * (eulerFlux0 sp (sp.nbr 1) 0 - eulerFlux0 (sp.nbr 0) sp 0) / DX
      = sp.inputs 0
    rw [eL, eR, (scaled_self_difference _ (hflux 0)).1, F64.sub_pos_zero]
  · show sp.inputs 1 - 0.5 * DT * (eulerFlux0 sp (sp.nbr 1) 1 - eulerFlux0 (sp.nbr 0) sp 1) / DX
      = sp.inputs 1
    rw [eL, eR, (scaled_self_difference _ (hflux 1)).1, F64.sub_pos_zero]
  · show sp.inputs 2 - 0.5 * DT * (eulerFlux0 sp (sp.nbr 1) 2 - eulerFlux0 (sp.nbr 0) sp 2) / DX
      = sp.inputs 2
    rw [eL, eR, (scaled_self_difference _ (hflux 2)).1, F64.sub_pos_zero]

/-- The stage `updateStep1` on a cell whose neighbours carry its half-step
triple. -/
theorem updateStep1_uniform (w : Vec3 F64) (hfin : ∀ i, (w i).isfinite = true)
    (hz : ∀ i, (w i).isNegZero = false) (hflux : ∀ i, (eulerFlux w w i).isfinite = true)
    (sp : SpatialPoint 7)
    (hL : fields345 (sp.nbr 0) = w) (hC : fields345 sp = w) (hR : fields345 (sp.nbr 1) = w) :
    eulerFlux1 (sp.nbr 0) sp = eulerFlux1 sp (sp.nbr 1)
    ∧ eulerFlux1 sp (sp.nbr 1) = eulerFlux w w
    ∧ updateStep1 sp 0 = sp.inputs 0
    ∧ updateStep1 sp 1 = sp.inputs 1
    ∧ updateStep1 sp 2 = sp.inputs 2 := by
  have eL := eulerFlux1_uniform w hfin hz _ _ hL hC
  have eR := eulerFlux1_uniform w hfin hz _ _ hC hR
  refine ⟨eL.trans eR.symm, eR, ?_, ?_, ?_⟩
  · show sp.inputs 0 - DT * (eulerFlux1 sp (sp.nbr 1) 0 - eulerFlux1 (sp.nbr 0) sp 0) / DX
      = sp.inputs 0
    rw [eL, eR, (scaled_self_difference _ (hflux 0)).2, F64.sub_pos_zero]
  · show sp.inputs 1 - DT * (eulerFlux1 sp (sp.nbr 1) 1 - eulerFlux1 (sp.nbr 0) sp 1) / DX
      = sp.inputs 1
    rw [eL, eR, (scaled_self_difference _ (hflux 1)).2, F64.sub_pos_zero]
  · show sp.inputs 2 - DT * (eulerFlux1 sp (sp.nbr 1) 2 - eulerFlux1 (sp.nbr 0) sp 2) / DX
      = sp.inputs 2
    rw [eL, eR, (scaled_self_difference _ (hflux 2)).2, F64.sub_pos_zero]

/-- The stage `pRatioStep0` reads the cell and its two neighbours only. -/
theorem pRatioStep0_local (r s : ℤ → Fin 3 → F64) (p q : ℤ)
    (hl : r (p - 1) = s (q - 1)) (hc : r p = s q) (hr : r (p + 1) = s (q + 1)) :
    pRatioStep0 { row := r, pos := p } = pRatioStep0 { row := s, pos := q } := by
  simp only [pRatioStep0, nbr_zero, nbr_one, SpatialPoint.inputs, hl, hc, hr]

/-- The stage `updateStep0` reads the cell and its two neighbours only. -/
theorem updateStep0_local (r s : ℤ → Fin 4 → F64) (p q : ℤ)
    (hl : r (p - 1) = s (q - 1)) (hc : r p = s q) (hr : r (p + 1) = s (q + 1)) :
    updateStep0 { row := r, pos := p } = updateStep0 { row := s, pos := q } := by
  simp only [updateStep0, eulerFlux0, nbr_zero, nbr_one, SpatialPoint.inputs, hl, hc, hr]

/-- The stage `pRatioStep1` reads the cell and its two neighbours only. -/
theorem pRatioStep1_local (r s : ℤ → Fin 6 → F64) (p q : ℤ)
    (hl : r (p - 1) = s (q - 1)) (hc : r p = s q) (hr : r (p + 1) = s (q + 1)) :
    pRatioStep1 { row := r, pos := p } = pRatioStep1 { row := s, pos := q } := by
  simp only [pRatioStep1, nbr_zero, nbr_one, SpatialPoint.inputs, hl, hc, hr]

/-- The stage `updateStep1` reads the cell and its two neighbours only. -/
theorem updateStep1_local (r s : ℤ → Fin 7 → F64) (p q : ℤ)
    (hl : r (p - 1) = s (q - 1)) (hc : r p = s q) (hr : r (p + 1) = s (q + 1)) :
    updateStep1 { row := r, pos := p } = updateStep1 { row := s, pos := q } := by
  simp only [updateStep1, eulerFlux1, nbr_zero, nbr_one, SpatialPoint.inputs, hl, hc, hr]

/-- A stage that reads the cell and its two neighbours only, applied to two
rows that agree on the cells `i - k - 1 .. i + k + 1`, gives rows that agree on
the cells `i - k .. i + k`. -/
theorem onGrid_local {n m : ℕ} (stage : SpatialPoint n → Fin m → F64)
    (hst : ∀ (r s : ℤ → Fin n → F64) (p q : ℤ), r (p - 1) = s (q - 1) → r p = s q →
      r (p + 1) = s (q + 1) → stage { row := r, pos := p } = stage { row := s, pos := q })
    (U V : ℤ → Fin n → F64) (i : ℤ) (k : ℤ)
    (h : ∀ j, i - (k + 1) ≤ j → j ≤ i + (k + 1) → U j = V j) :
    ∀ j, i - k ≤ j → j ≤ i + k → onGrid stage U j = onGrid stage V j := by
  intro j h1 h2
  exact hst U V j j (h _ (by omega) (by omega)) (h _ (by omega) (by omega))
    (h _ (by omega) (by omega))

/-- A full timestep on two rows that agree on the cells `i - 4 .. i + 4` gives
the same triple in cell `i`. -/
theorem fullStep_local (U V : ℤ → Vec3 F64) (i : ℤ)
    (h : ∀ j, i - 4 ≤ j → j ≤ i + 4 → U j = V j) : fullStep U i = fullStep V i := by
  have h1 := onGrid_local pRatioStep0 pRatioStep0_local U V i 3 (by simpa using h)
  have h2 := onGrid_local updateStep0 updateStep0_local _ _ i 2 (by simpa using h1)
  have h3 := onGrid_local pRatioStep1 pRatioStep1_local _ _ i 1 (by simpa using h2)
  have h4 := onGrid_local updateStep1 updateStep1_local _ _ i 0 (by simpa using h3)
  exact h4 i (by omega) (by omega)

/-- The function `eulerFlux0` follows the spec's face rule on fields 0, 1, 2 with
the ratios in field 3. -/
theorem eulerFlux0_eq_faceRule (L R : SpatialPoint 4) :
    eulerFlux0 L R = faceRule (fields012 L) (fields012 R) (L.inputs 3) (R.inputs 3) := by
  unfold eulerFlux0 faceRule fields012
  rw [vec3_eta_fun (fun i => limitedReconstruction _ _ _),
    vec3_eta_fun (fun i => limitedReconstruction _ _ (F64.div 1.0 (R.inputs 3)))]
  rfl

/-- The function `eulerFlux1` follows the spec's face rule on fields 3, 4, 5 with
the ratios in field 6. -/
theorem eulerFlux1_eq_faceRule (L R : SpatialPoint 7) :
    eulerFlux1 L R = faceRule (fields345 L) (fields345 R) (L.inputs 6) (R.inputs 6) := by
  unfold eulerFlux1 faceRule fields345
  rw [vec3_eta_fun (fun i => limitedReconstruction _ _ _),
    vec3_eta_fun (fun i => limitedReconstruction _ _ (F64.div 1.0 (R.inputs 6)))]
  rfl

/-- A full timestep leaves cell `i` unchanged when the cells `i - 2 .. i + 2`
all hold the same triple `w` of finite doubles, none a negative zero, with a
finite flux `eulerFlux(w, w)`. -/
theorem fullStep_uniform (w : Vec3 F64) (hfin : ∀ i, (w i).isfinite = true)
    (hz : ∀ i, (w i).isNegZero = false) (hflux : ∀ i, (eulerFlux w w i).isfinite = true)
    (U : ℤ → Vec3 F64) (i : ℤ) (hU : ∀ j, i - 2 ≤ j → j ≤ i + 2 → U j = w) :
    fullStep U i = w := by
  have h4 : ∀ j, i - 2 ≤ j → j ≤ i + 2 →
      fields012 { row := onGrid pRatioStep0 U, pos := j } = w := by
    intro j hl hu
    have e := hU j hl hu
    show (![U j 0, U j 1, U j 2] : Vec3 F64) = w
    rw [e, vec3_eta]
  have h6 : ∀ j, i - 1 ≤ j → j ≤ i + 1 → ∀ c : Fin 3,
      onGrid updateStep0 (onGrid pRatioStep0 U) j (Fin.castLE (by decide) c) = w c
      ∧ onGrid updateStep0 (onGrid pRatioStep0 U) j (Fin.natAdd 3 c) = w c := by
    intro j hl hu c
    obtain ⟨_, _, e3, e4, e5⟩ := updateStep0_uniform w hfin hz hflux
      { row := onGrid pRatioStep0 U, pos := j }
      (h4 (j - 1) (by omega) (by omega)) (h4 j (by omega) (by omega))
      (h4 (j + 1) (by omega) (by omega))
    have e := hU j (by omega) (by omega)
    have i0 : SpatialPoint.inputs { row := onGrid pRatioStep0 U, pos := j } 0 = w 0 := by
      show U j 0 = w 0
      rw [e]
    have i1 : SpatialPoint.inputs { row := onGrid pRatioStep0 U, pos := j } 1 = w 1 := by
      show U j 1 = w 1
      rw [e]
    have i2 : SpatialPoint.inputs { row := onGrid pRatioStep0 U, pos := j } 2 = w 2 := by
      show U j 2 = w 2
      rw [e]
    fin_cases c
    · exact ⟨i0, e3.trans i0⟩
    · exact ⟨i1, e4.trans i1⟩
    · exact ⟨i2, e5.trans i2⟩
  have h7 : ∀ j, i - 1 ≤ j → j ≤ i + 1 →
      fields345 { row := onGrid pRatioStep1 (onGrid updateStep0 (onGrid pRatioStep0 U)),
                  pos := j } = w := by
    intro j hl hu
    show (![onGrid updateStep0 (onGrid pRatioStep0 U) j 3,
      onGrid updateStep0 (onGrid pRatioStep0 U) j 4,
      onGrid updateStep0 (onGrid pRatioStep0 U) j 5] : Vec3 F64) = w
    rw [show onGrid updateStep0 (onGrid pRatioStep0 U) j 3 = w 0 from (h6 j hl hu 0).2,
      show onGrid updateStep0 (onGrid pRatioStep0 U) j 4 = w 1 from (h6 j hl hu 1).2,
      show onGrid updateStep0 (onGrid pRatioStep0 U) j 5 = w 2 from (h6 j hl hu 2).2, vec3_eta]
  obtain ⟨_, _, e0, e1, e2⟩ := updateStep1_uniform w hfin hz hflux
    { row := onGrid pRatioStep1 (onGrid updateStep0 (onGrid pRatioStep0 U)), pos := i }
    (h7 (i - 1) (by omega) (by omega)) (h7 i (by omega) (by omega))
    (h7 (i + 1) (by omega) (by omega))
  have k0 : fullStep U i 0 = w 0 := e0.trans (h6 i (by omega) (by omega) 0).1
  have k1 : fullStep U i 1 = w 1 := e1.trans (h6 i (by omega) (by omega) 1).1
  have k2 : fullStep U i 2 = w 2 := e2.trans (h6 i (by omega) (by omega) 2).1
  funext c
  fin_cases c
  · exact k0
  · exact k1
  · exact k2

end B64

/-- Counterexample to C2 on `double`: the ratio `r = 1` is finite and positive,
yet at `w = 2^1023`, `wNbr = -2^1023` the code returns `-inf` (the difference
`wNbr - w` overflows), which is not between `w` and `wNbr`; and at `w = -2`,
`wNbr = 0.2` it returns `-0.8999999999999999`, which is above the simple average
`(w + wNbr)/2 = -0.9`: not the average, and not between `w` and the average. -/
theorem limitedReconstruction_not_bounded_on_double :
    (F64.isfinite 1 && F64.gt 1 0) = true
    ∧ B64.limitedReconstruction (F64.fin false (2 ^ 52) 2045) (F64.fin true (2 ^ 52) 2045) 1
        = F64.inf true
    ∧ B64.limitedReconstruction (-2) 0.2 1 = F64.fin true 8106479329266892 1021
    ∧ ((-2 : F64) + 0.2) / 2 = F64.fin true 8106479329266893 1021
    ∧ F64.lt (-2) (((-2 : F64) + 0.2) / 2) = true
    ∧ F64.lt (((-2 : F64) + 0.2) / 2) (B64.limitedReconstruction (-2) 0.2 1) = true
    ∧ B64.limitedReconstruction (-2) 0.2 1 ≠ ((-2 : F64) + 0.2) / 2
    ∧ F64.lt (B64.limitedReconstruction (F64.fin false (2 ^ 52) 2045)
          (F64.fin true (2 ^ 52) 2045) 1) (F64.fin true (2 ^ 52) 2045) = true := by
  decide!

/-- Counterexample to C4 on `double`: at `w = (1, 2, 1)` the density is positive
and the pressure is negative, the sound-speed `sqrt` returns NaN and all three
components of `eulerFlux(w, w)` are NaN; at `w = (49, 1, 5)`, with positive
density and pressure, the mass component of `eulerFlux(w, w)` is
`0.9999999999999999`, not `rhoU = 1`. -/
theorem eulerFlux_not_consistent_on_double :
    (F64.gt 1 0 = true ∧ F64.lt (B64.pressure 1 2 1) 0 = true
      ∧ ∀ i, B64.eulerFlux ![1, 2, 1] ![1, 2, 1] i = F64.nan)
    ∧ (F64.gt 49 0 = true ∧ F64.gt (B64.pressure 49 1 5) 0 = true
      ∧ B64.eulerFlux ![49, 1, 5] ![49, 1, 5] 0 = F64.fin false 9007199254740991 1021
      ∧ (1 : F64) = F64.fin false 4503599627370496 1022
      ∧ B64.eulerFlux ![49, 1, 5] ![49, 1, 5] 0 ≠ (![49, 1, 5] : Vec3 F64) 1) := by
  decide!

/-- Counterexample to C15 on `double`: the cells `a = (0.125, 0.125, 0.0625)` and
`b = (0.5, 0.5, 0.25)` have positive density and pressure `0`, and with the
ratio `r = 0.3` the face triple reconstructed from `a` towards `b` has a
negative pressure. -/
theorem reconstruction_not_admissible_on_double :
    (F64.gt 0.125 0 = true ∧ B64.pressure 0.125 0.125 0.0625 = 0)
    ∧ (F64.gt 0.5 0 = true ∧ B64.pressure 0.5 0.5 0.25 = 0)
    ∧ F64.lt (B64.pressure (B64.limitedReconstruction 0.125 0.5 0.3)
        (B64.limitedReconstruction 0.125 0.5 0.3)
        (B64.limitedReconstruction 0.0625 0.25 0.3)) 0 = true := by
  decide!

/-- Counterexample to C16 on `double`: the triples `(1, 1, 0.5)` and
`(0.5, 0.5, 0.25)` have positive density and pressure `0`, yet the argument
`gamma * p / rho` of the sound-speed `sqrt` is negative and all three components
of `eulerFlux` are NaN. -/
theorem eulerFlux_not_well_defined_on_double :
    (F64.gt 1 0 = true ∧ B64.pressure 1 1 0.5 = 0)
    ∧ (F64.gt 0.5 0 = true ∧ B64.pressure 0.5 0.5 0.25 = 0)
    ∧ F64.lt (B64.soundSpeedArg ![1, 1, 0.5] ![0.5, 0.5, 0.25]) 0 = true
    ∧ ∀ i, B64.eulerFlux ![1, 1, 0.5] ![0.5, 0.5, 0.25] i = F64.nan := by
  decide!

/-- Counterexample to C18 on `double`: for `a = (1, 0, 2.5)` and
`b = (1, 0.3, 2)`, of positive density, the momentum component of
`eulerFlux(a, b)` is `0.745546881541306` and that of `eulerFlux(m(b), m(a))` is
`0.7455468815413062`: the four-term sum of line 44 is added in another order. -/
theorem eulerFlux_not_mirrored_on_double :
    F64.gt 1 0 = true
    ∧ B64.eulerFlux ![1, 0, 2.5] ![1, 0.3, 2] 1 = F64.fin false 6715289315793322 1021
    ∧ B64.eulerFlux (B64.mirror ![1, 0.3, 2]) (B64.mirror ![1, 0, 2.5]) 1
        = F64.fin false 6715289315793324 1021
    ∧ B64.eulerFlux (B64.mirror ![1, 0.3, 2]) (B64.mirror ![1, 0, 2.5]) 1
        ≠ B64.eulerFlux ![1, 0, 2.5] ![1, 0.3, 2] 1 := by
  decide!

/-- Counterexample to C17 on `double`: three cells that carry the triple
`(1, 2, 1)`, of positive density, with the ratio `1`; both face fluxes are NaN
and `updateStep0` and `updateStep1` write NaN instead of the old triple. -/
theorem uniform_state_not_steady_on_double :
    F64.gt 1 0 = true
    ∧ (∀ i, B64.eulerFlux0
        (B64.SpatialPoint.nbr { row := fun _ => ![1, 2, 1, 1], pos := 0 } 0)
        { row := fun _ => ![1, 2, 1, 1], pos := 0 } i = F64.nan)
    ∧ B64.updateStep0 { row := fun _ => ![1, 2, 1, 1], pos := 0 } 3 = F64.nan
    ∧ B64.updateStep0 { row := fun _ => ![1, 2, 1, 1], pos := 0 } 3
        ≠ B64.SpatialPoint.inputs { row := fun _ => ![1, 2, 1, 1], pos := 0 } 0
    ∧ B64.updateStep1 { row := fun _ => ![1, 2, 1, 1, 2, 1, 1], pos := 0 } 0 = F64.nan
    ∧ B64.updateStep1 { row := fun _ => ![1, 2, 1, 1, 2, 1, 1], pos := 0 } 0
        ≠ B64.SpatialPoint.inputs { row := fun _ => ![1, 2, 1, 1, 2, 1, 1], pos := 0 } 0 := by
  decide!

/-- Claim C17, amended (a uniform state with a finite flux is a steady state, on
`double`): for a triple `w` of finite doubles, none of them a negative zero,
for which the three components of `eulerFlux(w, w)` are finite, if a cell and
both of its neighbours carry `w` (fields 0, 1, 2 for `updateStep0`, fields
3, 4, 5 for `updateStep1`), then for any values of the three cells' ratio fields
the two face fluxes are equal, both being `eulerFlux(w, w)`, and the stage
writes the cell's old triple unchanged: `updateStep0` outputs 3, 4, 5 are inputs
0, 1, 2, and `updateStep1` outputs 0, 1, 2 are inputs 0, 1, 2. -/
theorem uniform_state_steady (w : Vec3 F64)
    (hfin : ∀ i, (w i).isfinite = true) (hz : ∀ i, (w i).isNegZero = false)
    (hflux : ∀ i, (B64.eulerFlux w w i).isfinite = true) :
    (∀ sp : B64.SpatialPoint 4,
      B64.fields012 (sp.nbr 0) = w → B64.fields012 sp = w → B64.fields012 (sp.nbr 1) = w →
        B64.eulerFlux0 (sp.nbr 0) sp = B64.eulerFlux0 sp (sp.nbr 1)
        ∧ B64.eulerFlux0 sp (sp.nbr 1) = B64.eulerFlux w w
        ∧ B64.updateStep0 sp 3 = sp.inputs 0
        ∧ B64.updateStep0 sp 4 = sp.inputs 1
        ∧ B64.updateStep0 sp 5 = sp.inputs 2)
    ∧ (∀ sp : B64.SpatialPoint 7,
      B64.fields345 (sp.nbr 0) = w → B64.fields345 sp = w → B64.fields345 (sp.nbr 1) = w →
        B64.eulerFlux1 (sp.nbr 0) sp = B64.eulerFlux1 sp (sp.nbr 1)
        ∧ B64.eulerFlux1 sp (sp.nbr 1) = B64.eulerFlux w w
        ∧ B64.updateStep1 sp 0 = sp.inputs 0
        ∧ B64.updateStep1 sp 1 = sp.inputs 1
        ∧ B64.updateStep1 sp 2 = sp.inputs 2) :=
  ⟨fun sp hL hC hR => B64.updateStep0_uniform w hfin hz hflux sp hL hC hR,
    fun sp hL hC hR => B64.updateStep1_uniform w hfin hz hflux sp hL hC hR⟩

/-- Witness of the amended C17: three cells that carry the right Sod state
`(1, 0, 2.5)`, with the ratios `0.5`, `+inf` and NaN from left to right; the
middle cell keeps its momentum `0` in `updateStep0` and its field 0 in
`updateStep1`. -/
theorem uniform_state_steady_witness :
    (∀ i, ((![1, 0, 2.5] : Vec3 F64) i).isfinite = true)
    ∧ (∀ i, ((![1, 0, 2.5] : Vec3 F64) i).isNegZero = false)
    ∧ (∀ i, (B64.eulerFlux ![1, 0, 2.5] ![1, 0, 2.5] i).isfinite = true)
    ∧ B64.updateStep0
        { row := fun j => ![1, 0, 2.5, if j < 0 then 0.5 else if j = 0 then F64.inf false
            else F64.nan], pos := 0 } 4 = 0
    ∧ B64.updateStep1
        { row := fun j => ![7, 8, 9, 1, 0, 2.5, if j < 0 then 0.5 else if j = 0 then F64.inf false
            else F64.nan], pos := 0 } 0 = 7 := by
  have h := uniform_state_steady ![1, 0, 2.5] (by decide!) (by decide!) (by decide!)
  refine ⟨by decide!, by decide!, by decide!, ?_, ?_⟩
  · exact (h.1 { row := fun j => ![1, 0, 2.5, if j < 0 then 0.5 else if j = 0 then F64.inf false
        else F64.nan], pos := 0 } rfl rfl rfl).2.2.2.1
  · exact (h.2 { row := fun j => ![7, 8, 9, 1, 0, 2.5, if j < 0 then 0.5
        else if j = 0 then F64.inf false else F64.nan], pos := 0 } rfl rfl rfl).2.2.1

/-- Claim C8 (face flux rule, identical in both variants), on `double`:
`eulerFlux0(L, R)` is `eulerFlux` of the two face states reconstructed
componentwise from fields 0, 1, 2 with the one ratio of each cell, field 3 of
`L` for the left state and `1/r` of field 3 of `R` for the right state;
`eulerFlux1` is the same rule on fields 3, 4, 5 with the ratio in field 6, that
is, `eulerFlux0` on the cells `(f3, f4, f5, f6)`. The reciprocal is the division
of `double`: `1/4 = 0.25`, and `1/2^-1074` overflows to `+inf`. Between the left
cell `(1, 0, 2.5)` with ratio `1` and the right cell `(0.125, 0, 0.25)` the right
face state is `(0.234375, 0, 0.53125)` when the ratio of the right cell is `4`
(limiter `0.25`), and the right cell's own triple when it is `2^-1074`. -/
theorem eulerFlux0_eulerFlux1_face_rule (L R : B64.SpatialPoint 4)
    (L1 R1 : B64.SpatialPoint 7) :
    B64.eulerFlux0 L R
        = B64.eulerFlux (fun i => B64.limitedReconstruction (B64.fields012 L i)
              (B64.fields012 R i) (L.inputs 3))
            (fun i => B64.limitedReconstruction (B64.fields012 R i)
              (B64.fields012 L i) (1.0 / R.inputs 3))
    ∧ B64.eulerFlux0 L R
        = B64.faceRule (B64.fields012 L) (B64.fields012 R) (L.inputs 3) (R.inputs 3)
    ∧ B64.eulerFlux1 L1 R1
        = B64.faceRule (B64.fields345 L1) (B64.fields345 R1) (L1.inputs 6) (R1.inputs 6)
    ∧ B64.eulerFlux1 L1 R1 = B64.eulerFlux0 (B64.tail4 L1) (B64.tail4 R1)
    ∧ ((1.0 : F64) / 4 = 0.25 ∧ (1.0 : F64) / F64.fin false 1 0 = F64.inf false)
    ∧ (∀ i, B64.eulerFlux0 { row := fun _ => ![1, 0, 2.5, 1], pos := 0 }
            { row := fun _ => ![0.125, 0, 0.25, 4], pos := 0 } i
          = B64.eulerFlux ![0.5625, 0, 1.375] ![0.234375, 0, 0.53125] i)
    ∧ (∀ i, B64.eulerFlux0 { row := fun _ => ![1, 0, 2.5, 1], pos := 0 }
            { row := fun _ => ![0.125, 0, 0.25, 4], pos := 0 } i
          = (![F64.fin false 6816445850065802 1019, F64.fin false 6867989431740004 1020,
              F64.fin false 8764001807227459 1020] : Vec3 F64) i)
    ∧ (∀ i, B64.eulerFlux0 { row := fun _ => ![1, 0, 2.5, 1], pos := 0 }
            { row := fun _ => ![0.125, 0, 0.25, F64.fin false 1 0], pos := 0 } i
          = B64.eulerFlux ![0.5625, 0, 1.375] ![0.125, 0, 0.25] i) := by
  refine ⟨B64.eulerFlux0_eq_faceRule L R, B64.eulerFlux0_eq_faceRule L R,
    B64.eulerFlux1_eq_faceRule L1 R1, rfl, by decide!, by decide!, by decide!, by decide!⟩

/-- Claim C19 (bounded domain of dependence), on `double` with the stages as
functions of a point of the grid: each of the four stages `pRatioStep0`,
`updateStep0`, `pRatioStep1`, `updateStep1` computes the same outputs at two
points whose cells and whose left and right neighbours carry the same input
fields, whatever the rest of the two rows holds; so for two rows whose initial
triples agree on the cells `i - 4 .. i + 4`, the final triple of cell `i` after
a full timestep is the same. -/
theorem bounded_domain_of_dependence (U V : ℤ → Vec3 F64) (i : ℤ)
    (h : ∀ j, i - 4 ≤ j → j ≤ i + 4 → U j = V j) :
    B64.fullStep U i = B64.fullStep V i
    ∧ (∀ (r s : ℤ → Fin 3 → F64) (p q : ℤ),
        r (p - 1) = s (q - 1) → r p = s q → r (p + 1) = s (q + 1) →
        B64.pRatioStep0 { row := r, pos := p } = B64.pRatioStep0 { row := s, pos := q })
    ∧ (∀ (r s : ℤ → Fin 4 → F64) (p q : ℤ),
        r (p - 1) = s (q - 1) → r p = s q → r (p + 1) = s (q + 1) →
        B64.updateStep0 { row := r, pos := p } = B64.updateStep0 { row := s, pos := q })
    ∧ (∀ (r s : ℤ → Fin 6 → F64) (p q : ℤ),
        r (p - 1) = s (q - 1) → r p = s q → r (p + 1) = s (q + 1) →
        B64.pRatioStep1 { row := r, pos := p } = B64.pRatioStep1 { row := s, pos := q })
    ∧ (∀ (r s : ℤ → Fin 7 → F64) (p q : ℤ),
        r (p - 1) = s (q - 1) → r p = s q → r (p + 1) = s (q + 1) →
        B64.updateStep1 { row := r, pos := p } = B64.updateStep1 { row := s, pos := q }) :=
  ⟨B64.fullStep_local U V i h, B64.pRatioStep0_local, B64.updateStep0_local,
    B64.pRatioStep1_local, B64.updateStep1_local⟩

/-- Witness of C19: the Sod row and the same row with cell 5 overwritten by
NaN agree on the cells `-4 .. 4`, so cell 0 ends a full timestep with the same
triple in both. -/
theorem bounded_domain_of_dependence_witness :
    (∀ j : ℤ, 0 - 4 ≤ j → j ≤ 0 + 4 →
        B64.sodRow j = (fun k => if k = 5 then ![F64.nan, F64.nan, F64.nan] else B64.sodRow k) j)
    ∧ B64.fullStep B64.sodRow 0
        = B64.fullStep
            (fun k => if k = 5 then ![F64.nan, F64.nan, F64.nan] else B64.sodRow k) 0 := by
  have hagree : ∀ j : ℤ, 0 - 4 ≤ j → j ≤ 0 + 4 →
      B64.sodRow j
        = (fun k => if k = 5 then ![F64.nan, F64.nan, F64.nan] else B64.sodRow k) j := by
    intro j _ hj
    have : j ≠ 5 := by omega
    simp [this]
  exact ⟨hagree, (bounded_domain_of_dependence _ _ 0 hagree).1⟩

/-- The Sod run on `double` leaves the interval `(0.1, 1.0)` in its first
timestep: the first cell right of the discontinuity (cell 0, at `x = 0.25`) then
has the density `1.000056929450522`, which is above `1.0`. -/
theorem sod_density_overshoot :
    B64.run 1 B64.sodRow 0 0 = F64.fin false 4503856014822653 1022
    ∧ F64.lt 1.0 (B64.run 1 B64.sodRow 0 0) = true := by
  decide!

end Binary64

end Swept1D
